import Mathlib

/-!
# Trivial relocatability in `sus/mem/relocate.h`

A shallow embedding of the compile-time predicate `sus::mem::TriviallyRelocatable`
and of the class-body macros that let a type opt in to it.

C++ types are represented by their structure only as far as the header looks at
it (array extents and references).  Every fact the header obtains from the
compiler, from the standard library or from headers outside this development
(`std::is_volatile_v`, `sus::mem::data_size_of`, the lookup of the static member
`T::SusUnsafeTrivialRelocate`, ...) is a field of a `Toolchain`, so nothing is
assumed about those facts beyond what a theorem states as a hypothesis.
-/

namespace sus.mem

/-- A C++ type, seen through the transformations `relocate.h` applies to it.
`named id` is any type that is neither an array nor a reference (a scalar, a
class, ..., cv-qualification included in its identity); `array elem extent` is
`elem[extent]`, with `none` for an array of unknown bound. -/
inductive CppType where
  | named (id : Nat)
  | array (elem : CppType) (extent : Option Nat)
  | lvalue_ref (referent : CppType)
  | rvalue_ref (referent : CppType)
  deriving DecidableEq, Repr

/-- What the compiler and the headers outside `relocate.h` answer about types.

* `size_t_bits`: the width of `size_t`.
* `has_extension_trivially_relocatable`: `__has_extension(trivially_relocatable)`.
* `is_volatile_v` ... `is_trivially_destructible_v`: the `std::` type traits.
* `data_size_of`: the value of `sus::mem::data_size_of<T>()` (header
  `sus/mem/size_of.h`), a `size_t`.
* `SusUnsafeTrivialRelocate`: the lookup `T::SusUnsafeTrivialRelocate` as seen by
  `relocatable_tag<T>`: `some v` when it names a member of type `const bool`
  with value `v`, `none` otherwise.
* `is_trivially_relocatable`: the builtin `__is_trivially_relocatable(T)`, which
  is how a `[[clang::trivial_abi]]` class is recognised.
* `UnsafeFnMarker`: the type `const ::sus::marker::UnsafeFnMarker`. -/
structure Toolchain where
  size_t_bits : Nat
  has_extension_trivially_relocatable : Bool
  is_volatile_v : CppType → Bool
  data_size_of : CppType → Nat
  SusUnsafeTrivialRelocate : CppType → Option Bool
  is_trivially_copyable_v : CppType → Bool
  is_trivially_move_constructible_v : CppType → Bool
  is_trivially_move_assignable_v : CppType → Bool
  is_trivially_destructible_v : CppType → Bool
  is_trivially_relocatable : CppType → Bool
  UnsafeFnMarker : CppType

/-- The conversion `size_t(v)`: reduction modulo `2 ^ size_t_bits`. -/
def size_t (c : Toolchain) (v : Int) : Nat :=
  (v % 2 ^ c.size_t_bits).toNat

/-- The trait `std::is_reference_v<T>`. -/
def is_reference_v : CppType → Bool
  | .lvalue_ref _ => true
  | .rvalue_ref _ => true
  | _ => false

/-- The transformation `std::remove_reference_t<T>`. -/
def remove_reference_t : CppType → CppType
  | .lvalue_ref referent => referent
  | .rvalue_ref referent => referent
  | T => T

/-- The transformation `std::remove_all_extents_t<T>`. -/
def remove_all_extents_t : CppType → CppType
  | .array elem _ => remove_all_extents_t elem
  | T => T

/-- The trait `std::is_same_v<A, B>`. -/
def is_same_v (A B : CppType) : Bool :=
  decide (A = B)

/-- The call `relocatable_tag<T>::value(0)`: the overload `value(int)` is chosen
when `T::SusUnsafeTrivialRelocate` is a `const bool` and returns it; otherwise
`value(...)` is chosen and returns `false`. -/
def relocatable_tag.value (c : Toolchain) (T : CppType) : Bool :=
  match c.SusUnsafeTrivialRelocate T with
  | some v => v
  | none => false

/-- The concept `__private::TriviallyRelocatable_impl<T>`. -/
def TriviallyRelocatable_impl (c : Toolchain) (T : CppType) : Bool :=
  is_reference_v T
  || ((!(c.is_volatile_v (remove_all_extents_t T)))
      && (c.data_size_of (remove_all_extents_t (remove_reference_t T)) != size_t c (-1))
      && (relocatable_tag.value c (remove_all_extents_t T)
          || c.is_trivially_copyable_v (remove_all_extents_t T)
          || (c.is_trivially_move_constructible_v (remove_all_extents_t T)
              && c.is_trivially_move_assignable_v (remove_all_extents_t T)
              && c.is_trivially_destructible_v (remove_all_extents_t T))
          || (c.has_extension_trivially_relocatable
              && c.is_trivially_relocatable (remove_all_extents_t T))))

/-- The concept `TriviallyRelocatable<T...>`, the unary left fold
`(... && TriviallyRelocatable_impl<T>)`; the fold of an empty pack over `&&`
is `true`. -/
def TriviallyRelocatable (c : Toolchain) : List CppType → Bool
  | [] => true
  | T :: Ts =>
    Ts.foldl (fun acc U => acc && TriviallyRelocatable_impl c U) (TriviallyRelocatable_impl c T)

/-- What the expansion of one of the `sus_class_trivially_relocatable*` macros
adds to a class body: the messages of the `static_assert`s that fail (the empty
string for one written without a message), and the value of the member
`static constexpr bool SusUnsafeTrivialRelocate`.  The `friend` declaration of
the expansion only lets `relocatable_tag` read that member; it is part of what
the lookup `Toolchain.SusUnsafeTrivialRelocate` answers. -/
structure Expansion where
  diagnostics : List String
  SusUnsafeTrivialRelocate : Bool

/-- The declaration `static_assert(cond, message)`. -/
def static_assert (cond : Bool) (message : String) : List String :=
  if cond then [] else [message]

/-- The macro `sus_class_trivially_relocatable_if_types(marker, ...)`;
`marker_type` is `decltype` of its first argument. -/
def sus_class_trivially_relocatable_if_types (c : Toolchain) (marker_type : CppType)
    (types : List CppType) : Expansion :=
  { diagnostics := static_assert (is_same_v marker_type c.UnsafeFnMarker) ""
    SusUnsafeTrivialRelocate := TriviallyRelocatable c types }

/-- The macro `sus_class_trivially_relocatable(marker, ...)`. -/
def sus_class_trivially_relocatable (c : Toolchain) (marker_type : CppType)
    (types : List CppType) : Expansion :=
  let inner := sus_class_trivially_relocatable_if_types c marker_type types
  { diagnostics :=
      static_assert (is_same_v marker_type c.UnsafeFnMarker) ""
        ++ inner.diagnostics
        ++ static_assert inner.SusUnsafeTrivialRelocate "Type is not trivially relocatable"
    SusUnsafeTrivialRelocate := inner.SusUnsafeTrivialRelocate }

/-- The macro `sus_class_trivially_relocatable_unchecked(marker)`. -/
def sus_class_trivially_relocatable_unchecked (c : Toolchain) (marker_type : CppType) :
    Expansion :=
  { diagnostics := static_assert (is_same_v marker_type c.UnsafeFnMarker) ""
    SusUnsafeTrivialRelocate := true }

/-- The class `T` has the expansion `e` in its body and compiles: no
`static_assert` of `e` fails, and `T::SusUnsafeTrivialRelocate` is the member
`e` defines. -/
def Declares (c : Toolchain) (T : CppType) (e : Expansion) : Prop :=
  e.diagnostics = [] ∧ c.SusUnsafeTrivialRelocate T = some e.SusUnsafeTrivialRelocate

/-- The array type `T[n₁][n₂]...` for the extents `[n₁, n₂, ...]` (`none` for
an unknown bound); `T` itself for no extent. -/
def array_of (T : CppType) (extents : List (Option Nat)) : CppType :=
  extents.foldr (fun extent U => .array U extent) T

/-! ## A concrete toolchain

A 64-bit Clang with the `trivially_relocatable` extension and the types
below; the concrete instances of the theorems are evaluated on it.

| id | type |
|----|------|
| 0 | `int` |
| 1 | `S`, a class with user-provided move operations and destructor |
| 2 | `volatile int` |
| 3 | `Fwd`, declared but not defined |
| 4 | `Box<int>`, where `Box<P>` has user-provided move operations and destructor and declares `sus_class_trivially_relocatable_if_types(marker, P)` |
| 5 | `Box<S>` |
| 6 | `Abi`, like `S` but marked `[[clang::trivial_abi]]` |
| 7 | `Tagged<S>`, where `Tagged<P>` holds one `int` and declares `sus_class_trivially_relocatable_if_types(marker, P)` |
| 8 | `Raw`, like `S` but declares `sus_class_trivially_relocatable_unchecked(marker)` |
| 9 | `const ::sus::marker::UnsafeFnMarker` |
| 10 | `Pair`, like `S` but declares `sus_class_trivially_relocatable(marker, int, Box<int>)` |
| 11 | `volatile Raw` |

The header asks the traits only of types that `remove_all_extents_t` returns
and short-circuits on references, so the answers about array and reference
types are never read; they are left at `false`, `none` and `8` here.
-/

/-- The types of the concrete toolchain that are trivially copyable, trivially
move-constructible, trivially move-assignable and trivially destructible. -/
def clang64.trivial (T : CppType) : Bool :=
  decide (T = .named 0) || decide (T = .named 2) || decide (T = .named 7)
    || decide (T = .named 9)

/-- The concrete toolchain described above. -/
def clang64 : Toolchain where
  size_t_bits := 64
  has_extension_trivially_relocatable := true
  is_volatile_v := fun T => decide (T = .named 2) || decide (T = .named 11)
  data_size_of := fun T =>
    match T with
    | .named 0 => 4
    | .named 2 => 4
    | .named 3 => 18446744073709551615
    | .named 7 => 4
    | .named 9 => 1
    | _ => 8
  SusUnsafeTrivialRelocate := fun T =>
    match T with
    | .named 4 => some true
    | .named 5 => some false
    | .named 7 => some false
    | .named 8 => some true
    | .named 10 => some true
    | .named 11 => some true
    | _ => none
  is_trivially_copyable_v := clang64.trivial
  is_trivially_move_constructible_v := clang64.trivial
  is_trivially_move_assignable_v := clang64.trivial
  is_trivially_destructible_v := clang64.trivial
  is_trivially_relocatable := fun T => clang64.trivial T || decide (T = .named 6)
  UnsafeFnMarker := .named 9

/-- The macro `sus_class_trivially_relocatable_if(marker, is_trivially_reloc)`;
`marker_type` is `decltype` of its first argument, `is_bool` is
`std::is_same_v<std::remove_cv_t<decltype(is_trivially_reloc)>, bool>`, and
`is_trivially_reloc` is the value of the second argument. -/
def sus_class_trivially_relocatable_if (c : Toolchain) (marker_type : CppType)
    (is_bool : Bool) (is_trivially_reloc : Bool) : Expansion :=
  { diagnostics :=
      static_assert (is_same_v marker_type c.UnsafeFnMarker) ""
        ++ static_assert is_bool ""
    SusUnsafeTrivialRelocate := is_trivially_reloc }

/-- The concrete toolchain with one more type, `.named 12`: `Flag`, a class
like `S` that declares `sus_class_trivially_relocatable_if(marker, false)`. -/
def clang64_flag : Toolchain :=
  { clang64 with
    SusUnsafeTrivialRelocate := fun T =>
      match T with
      | .named 12 => some false
      | U => clang64.SusUnsafeTrivialRelocate U }

/-- The concrete toolchain with one more type, `.named 13`: `Cloned<Raw>`, the
adapter of `subspace/iter/cloned.h` over `Raw` taken as inner producer type;
it declares `sus_class_trivially_relocatable(marker, Raw)`. -/
def clang64_cloned : Toolchain :=
  { clang64 with
    SusUnsafeTrivialRelocate := fun T =>
      match T with
      | .named 13 => some true
      | U => clang64.SusUnsafeTrivialRelocate U }

end sus.mem

/-! # The invariant gate in `sus/assertions/check.h` -/

namespace sus.assertions

/-- The type `std::source_location`. -/
structure source_location where
  file_name : String
  line : Nat
  column : Nat
  function_name : String
  deriving DecidableEq, Repr

/-- How a call of a `void` function ends, with the observable state of the
process (what the diagnostic sink has received, ...) at that point: the call
returns to its caller, or the process is terminated inside it. -/
inductive Completion (σ : Type) where
  | returns (state : σ)
  | terminates (state : σ)

/-- The functions of `sus/assertions/panic.h` that `check.h` calls.  Both are
`[[noreturn]]`: they never give control back, so each is described by the
state in which it terminates the process.  The overloads of
`panic_with_message` are one function of the text of the message. -/
structure PanicHandlers (σ : Type) where
  panic : source_location → σ → σ
  panic_with_message : String → source_location → σ → σ

/-- The function `check(bool cond, std::source_location location)`. -/
def check {σ : Type} (h : PanicHandlers σ) (cond : Bool) (location : source_location)
    (state : σ) : Completion σ :=
  if !cond then .terminates (h.panic location state) else .returns state

/-- The overload `check_with_message(bool, const char*, std::source_location)`;
`msg` is the text of the message. -/
def check_with_message {σ : Type} (h : PanicHandlers σ) (cond : Bool) (msg : String)
    (location : source_location) (state : σ) : Completion σ :=
  if !cond then .terminates (h.panic_with_message msg location state) else .returns state

/-- The overload
`check_with_message(bool, std::string_view, std::source_location)`. -/
def check_with_message_string_view {σ : Type} (h : PanicHandlers σ) (cond : Bool)
    (msg : String) (location : source_location) (state : σ) : Completion σ :=
  if !cond then .terminates (h.panic_with_message msg location state) else .returns state

/-- The overload
`check_with_message(bool, const std::string&, std::source_location)`. -/
def check_with_message_string {σ : Type} (h : PanicHandlers σ) (cond : Bool)
    (msg : String) (location : source_location) (state : σ) : Completion σ :=
  if !cond then .terminates (h.panic_with_message msg location state) else .returns state

/-- What the diagnostic sink receives at a failure. -/
structure Diagnostic where
  message : Option String
  location : source_location
  deriving DecidableEq, Repr

/-- Modelled from the spec: the default behaviour of `sus::panic` and
`sus::panic_with_message` (`sus/assertions/panic.h`), which report the message,
if any, and the location to the diagnostic sink and then terminate the process.
The state is the list of diagnostics the sink has received. -/
def reporting : PanicHandlers (List Diagnostic) where
  panic := fun location sink => sink ++ [{ message := none, location := location }]
  panic_with_message := fun msg location sink =>
    sink ++ [{ message := some msg, location := location }]

end sus.assertions

/-! # The cloning adapter in `subspace/iter/cloned.h` -/

namespace sus.iter

/-- Modelled from the spec: the type `::sus::iter::SizeHint`
(`subspace/iter/iterator_defn.h`), a lower bound and an optional upper bound on
the number of elements a producer will still yield. -/
structure SizeHint where
  lower : Nat
  upper : Option Nat
  deriving DecidableEq, Repr

/-- The template parameter `InnerSizedIter` of `Cloned`: the static members
`DoubleEnded` and `ExactSize` and the member functions that `Cloned` uses, on
producers whose state has type `σ` and whose `Item` is `Item`.  A member
function that may change the producer returns the new state with its result;
`size_hint` and `exact_size_hint` are `const`. -/
structure InnerSizedIter (σ Item : Type) where
  DoubleEnded : Bool
  ExactSize : Bool
  next : σ → Option Item × σ
  size_hint : σ → SizeHint
  next_back : σ → Option Item × σ
  exact_size_hint : σ → Nat

/-- The class `Cloned<InnerSizedIter>`: its one data member. -/
structure Cloned (σ : Type) where
  next_iter_ : σ

variable {σ Item Item' : Type}

/-- The member function `Cloned::next()`; `clone` is `::sus::clone` on the
items of the inner producer. -/
def Cloned.next (I : InnerSizedIter σ Item) (clone : Item → Item') (self : Cloned σ) :
    Option Item' × Cloned σ :=
  let r := I.next self.next_iter_
  (r.1.map (fun item => clone item), { next_iter_ := r.2 })

/-- The member function `Cloned::size_hint() const`. -/
def Cloned.size_hint (I : InnerSizedIter σ Item) (self : Cloned σ) : SizeHint :=
  I.size_hint self.next_iter_

/-- The member function `Cloned::next_back()`, which exists only when
`InnerSizedIter::DoubleEnded` holds: `none` when its `requires` clause is not
satisfied and it cannot be called. -/
def Cloned.next_back (I : InnerSizedIter σ Item) (clone : Item → Item') (self : Cloned σ) :
    Option (Option Item' × Cloned σ) :=
  if I.DoubleEnded then
    let r := I.next_back self.next_iter_
    some (r.1.map (fun item => clone item), { next_iter_ := r.2 })
  else none

/-- The member function `Cloned::exact_size_hint() const`, which exists only
when `InnerSizedIter::ExactSize` holds: `none` when its `requires` clause is
not satisfied and it cannot be called. -/
def Cloned.exact_size_hint (I : InnerSizedIter σ Item) (self : Cloned σ) : Option Nat :=
  if I.ExactSize then some (I.exact_size_hint self.next_iter_) else none

/-- A call a user of a producer can make to pull an element. -/
inductive Call where
  | next
  | next_back
  deriving DecidableEq, Repr

/-- One call on the inner producer. -/
def InnerSizedIter.call (I : InnerSizedIter σ Item) : Call → σ → Option Item × σ
  | .next, s => I.next s
  | .next_back, s => I.next_back s

/-- The results of a sequence of calls on the inner producer, in order, and
the state it is left in. -/
def InnerSizedIter.run (I : InnerSizedIter σ Item) : List Call → σ → List (Option Item) × σ
  | [], s => ([], s)
  | call :: rest, s =>
    let r := I.call call s
    let rs := I.run rest r.2
    (r.1 :: rs.1, rs.2)

/-- One call on `Cloned`; `none` when the call does not compile. -/
def Cloned.call (I : InnerSizedIter σ Item) (clone : Item → Item') :
    Call → Cloned σ → Option (Option Item' × Cloned σ)
  | .next, self => some (Cloned.next I clone self)
  | .next_back, self => Cloned.next_back I clone self

/-- The results of a sequence of calls on `Cloned`, in order, and the state it
is left in; `none` when one of the calls does not compile. -/
def Cloned.run (I : InnerSizedIter σ Item) (clone : Item → Item') :
    List Call → Cloned σ → Option (List (Option Item') × Cloned σ)
  | [], self => some ([], self)
  | call :: rest, self =>
    match Cloned.call I clone call self with
    | none => none
    | some r =>
      match Cloned.run I clone rest r.2 with
      | none => none
      | some rs => some (r.1 :: rs.1, rs.2)

/-- The results of `n` successive calls of `next()` on the inner producer. -/
def InnerSizedIter.pull (I : InnerSizedIter σ Item) : Nat → σ → List (Option Item)
  | 0, _ => []
  | n + 1, s => (I.next s).1 :: I.pull n (I.next s).2

/-- The results of `n` successive calls of `Cloned::next()`. -/
def Cloned.pull (I : InnerSizedIter σ Item) (clone : Item → Item') :
    Nat → Cloned σ → List (Option Item')
  | 0, _ => []
  | n + 1, self => (Cloned.next I clone self).1 :: Cloned.pull I clone n (Cloned.next I clone self).2

/-- The inner producer is double-ended over the sequence `remaining s` that
state `s` has left to yield: `next()` takes its first element, `next_back()`
its last one, and each yields empty when nothing is left. -/
def DoubleEndedOver (I : InnerSizedIter σ Item) (remaining : σ → List Item) : Prop :=
  I.DoubleEnded = true
    ∧ ∀ s : σ,
        (I.next s).1 = (remaining s).head?
          ∧ remaining (I.next s).2 = (remaining s).tail
          ∧ (I.next_back s).1 = (remaining s).getLast?
          ∧ remaining (I.next_back s).2 = (remaining s).dropLast

/-- The elements `next()` yielded in a run: the non-empty results of the
`next` calls, in call order. -/
def front_items {α : Type} : List Call → List (Option α) → List α
  | .next :: calls, some x :: results => x :: front_items calls results
  | _ :: calls, _ :: results => front_items calls results
  | _, _ => []

/-- The elements `next_back()` yielded in a run: the non-empty results of the
`next_back` calls, in call order. -/
def back_items {α : Type} : List Call → List (Option α) → List α
  | .next_back :: calls, some x :: results => x :: back_items calls results
  | _ :: calls, _ :: results => back_items calls results
  | _, _ => []

/-- A producer over a list of numbers, double-ended and of exact size: its
state is the list of the elements it has left. -/
def list_iter : InnerSizedIter (List Nat) Nat where
  DoubleEnded := true
  ExactSize := true
  next := fun s => (s.head?, s.tail)
  size_hint := fun s => { lower := s.length, upper := some s.length }
  next_back := fun s => (s.getLast?, s.dropLast)
  exact_size_hint := fun s => s.length

/-- The declaration in the body of `Cloned<InnerSizedIter>`,
`sus_class_trivially_relocatable(::sus::marker::unsafe_fn, decltype(next_iter_))`:
`decltype(next_iter_)` is the inner producer type `Inner`, and
`::sus::marker::unsafe_fn` (header `sus/marker/unsafe.h`) has the type
`const ::sus::marker::UnsafeFnMarker`. -/
def Cloned.SusUnsafeTrivialRelocate (c : sus.mem.Toolchain) (Inner : sus.mem.CppType) :
    sus.mem.Expansion :=
  sus.mem.sus_class_trivially_relocatable c c.UnsafeFnMarker [Inner]

/-- A value handed to a caller, as seen against the memory that holds the
source elements (a map from addresses to element values): either a value of
its own, or a borrow of the source element at an address. -/
inductive Produced (Val : Type) where
  | owned (value : Val)
  | borrowed (address : Nat)

/-- What a caller that holds a produced value observes when the memory of the
source elements is `memory`. -/
def Produced.read {Val : Type} (memory : Nat → Val) : Produced Val → Val
  | .owned value => value
  | .borrowed address => memory address

/-- The memory after the element at `address` is overwritten with `value`. -/
def write {Val : Type} (memory : Nat → Val) (address : Nat) (value : Val) : Nat → Val :=
  fun a => if a = address then value else memory a

/-- Modelled from the spec: `::sus::clone` (header `sus/mem/clone.h`) on an
item that refers to the source element at address `item`: duplicating an
element produces a value independent of the source, holding what the source
holds at the time of the call. -/
def clone {Val : Type} (memory : Nat → Val) (item : Nat) : Produced Val :=
  .owned (memory item)

end sus.iter

/-! # The documentation generator: `subdoc/lib/gen/options.h` -/

namespace subdoc.gen

/-- The constant `std::string::npos`, which is `size_t(-1)`, for a `size_t` of
`bits` bits. -/
def npos (bits : Nat) : Nat :=
  2 ^ bits - 1

/-- The index of the first occurrence of `ch` in `s`, if there is one. -/
def first_index (ch : Char) : List Char → Option Nat
  | [] => none
  | x :: xs => if x = ch then some 0 else (first_index ch xs).map (· + 1)

/-- The member function `std::string_view::find(char)` on the string with the
characters `s`: the index of the first occurrence as a `size_t`, or `npos`. -/
def string_view.find (bits : Nat) (s : List Char) (ch : Char) : Nat :=
  match first_index ch s with
  | some i => i % 2 ^ bits
  | none => npos bits

/-- The member function `std::string_view::substr(pos, count)`: the characters
from index `pos` on, at most `count` of them; `none` when `pos` is past the end
of the string and it throws `std::out_of_range`. -/
def string_view.substr (s : List Char) (pos count : Nat) : Option (List Char) :=
  if pos > s.length then none else some ((s.drop pos).take count)

/-- The struct `FavIcon`; each `std::string` is the list of its characters. -/
structure FavIcon where
  path : List Char
  mime : List Char
  deriving DecidableEq, Repr

/-- The function `FavIcon::from_string(std::string_view s)`, with `usize` of
`bits` bits.  The result is `none` when a `substr` throws (the function is
`noexcept`, so the process terminates), and otherwise the
`sus::Result<FavIcon, std::string>` it returns. -/
def FavIcon.from_string (bits : Nat) (s : List Char) : Option (Except String FavIcon) :=
  let pos := string_view.find bits s ';'
  if pos = npos bits then
    some (.error "invalid favicon string, use 'path;mimetype'")
  else
    match string_view.substr s 0 pos with
    | none => none
    | some path =>
      match string_view.substr s ((pos + 1) % 2 ^ bits) (npos bits) with
      | none => none
      | some mime => some (.ok { path := path, mime := mime })

/-! # The documentation generator: `subdoc/lib/gen/generate_record.cc`

A `std::string_view` or `std::string` is the list of its characters.  The
types of `subdoc/lib/database.h` are given by the members that
`generate_record.cc` reads; a map is the list of its entries, in the order its
iteration visits them. -/

/-- The type `FunctionId`: its member `is_static`, and the rest of what
identifies the function. -/
structure FunctionId where
  is_static : Bool
  key : Nat
  deriving DecidableEq, Repr

/-- The type `FunctionElement`: `name`, `sort_key` (a `u32`), `is_operator`,
and the value of `hidden()`. -/
structure FunctionElement where
  name : List Char
  sort_key : Nat
  is_operator : Bool
  hidden : Bool
  deriving DecidableEq, Repr

/-- The type `FieldElement`: `name`, `sort_key` (a `u32`), whether `is_static`
is `FieldElement::Static`, and the value of `hidden()`. -/
structure FieldElement where
  name : List Char
  sort_key : Nat
  is_static : Bool
  hidden : Bool
  deriving DecidableEq, Repr

/-- The type `Namespace`, a choice over `Namespace::Tag`. -/
inductive Namespace where
  | Global
  | Anonymous
  | Named (name : List Char)
  deriving DecidableEq, Repr

/-- The type `RecordElement`; a `UniqueSymbol` is a number. -/
structure RecordElement where
  name : List Char
  namespace_path : List Namespace
  record_path : List (List Char)
  hidden : Bool
  fields : List (Nat × FieldElement)
  ctors : List (FunctionId × FunctionElement)
  dtors : List (FunctionId × FunctionElement)
  conversions : List (FunctionId × FunctionElement)
  methods : List (FunctionId × FunctionElement)
  deriving Repr

/-- The types `SortedFunctionByName` and `SortedFieldByName`, which are
`sus::Tuple<std::string_view, u32, Id>` for `Id` a `FunctionId` or a
`UniqueSymbol`: `name` is `at<0>()`, `sort_key` is `at<1>()`, `id` is
`at<2>()`. -/
structure SortedByName (Id : Type) where
  name : List Char
  sort_key : Nat
  id : Id
  deriving DecidableEq, Repr

/-- The tuple `sus::tuple(element.name, element.sort_key, id)` that the loops
of `generate_record` push for the entry `(id, element)` of a map. -/
def entry_tuple {Id : Type} (entry : Id × FunctionElement) : SortedByName Id :=
  { name := entry.2.name, sort_key := entry.2.sort_key, id := entry.1 }

/-- The member function `Vec::push`. -/
def push {α : Type} (v : List α) (x : α) : List α :=
  v ++ [x]

/-- The loop of `generate_record` over the constructors, destructors and
conversions of the record, chained in that order: the value of
`sorted_special_methods` before it is sorted. -/
def collect_special_methods (element : RecordElement) : List (SortedByName FunctionId) :=
  (element.ctors ++ element.dtors ++ element.conversions).foldl
    (fun sorted_special_methods entry =>
      if entry.2.hidden then sorted_special_methods
      else push sorted_special_methods
        { name := entry.2.name, sort_key := entry.2.sort_key, id := entry.1 })
    []

/-- The three vectors that the loop of `generate_record` over
`element.methods` fills. -/
structure MethodLists where
  sorted_static_methods : List (SortedByName FunctionId)
  sorted_methods : List (SortedByName FunctionId)
  sorted_operators : List (SortedByName FunctionId)
  deriving Repr

/-- One iteration of the loop of `generate_record` over `element.methods`. -/
def collect_method (lists : MethodLists) (entry : FunctionId × FunctionElement) :
    MethodLists :=
  if entry.2.hidden then lists
  else if entry.1.is_static then
    { lists with
      sorted_static_methods := push lists.sorted_static_methods
        { name := entry.2.name, sort_key := entry.2.sort_key, id := entry.1 } }
  else if entry.2.is_operator then
    { lists with
      sorted_operators := push lists.sorted_operators
        { name := entry.2.name, sort_key := entry.2.sort_key, id := entry.1 } }
  else
    { lists with
      sorted_methods := push lists.sorted_methods
        { name := entry.2.name, sort_key := entry.2.sort_key, id := entry.1 } }

/-- The loop of `generate_record` over `element.methods`: the values of
`sorted_static_methods`, `sorted_methods` and `sorted_operators` before they
are sorted. -/
def collect_methods (element : RecordElement) : MethodLists :=
  element.methods.foldl collect_method
    { sorted_static_methods := [], sorted_methods := [], sorted_operators := [] }

/-- The comparison `a <=> b` of two `std::string_view`s: the first character
in which they differ decides, and a proper prefix is less. -/
def string_view.compare : List Char → List Char → Ordering
  | [], [] => .eq
  | [], _ :: _ => .lt
  | _ :: _, [] => .gt
  | a :: as, b :: bs =>
    if a < b then .lt else if b < a then .gt else string_view.compare as bs

/-- The member function `std::string_view::starts_with`. -/
def string_view.starts_with (s start : List Char) : Bool :=
  start.isPrefixOf s

/-- The comparator passed to `sort_unstable_by` for `sorted_static_fields`,
`sorted_fields`, `sorted_static_methods`, `sorted_methods` and
`sorted_operators` (the same lambda five times). -/
def compare_by_name {Id : Type} (a b : SortedByName Id) : Ordering :=
  let ord := string_view.compare a.name b.name
  if ord ≠ .eq then ord else compare a.sort_key b.sort_key

/-- The comparator passed to `sort_unstable_by` for `sorted_special_methods`. -/
def compare_special {Id : Type} (a b : SortedByName Id) : Ordering :=
  let a_dtor := string_view.starts_with a.name ['~']
  let b_dtor := string_view.starts_with b.name ['~']
  let dtor_ord := compare a_dtor b_dtor
  if dtor_ord ≠ .eq then dtor_ord
  else
    let ord := string_view.compare a.name b.name
    if ord ≠ .eq then ord else compare a.sort_key b.sort_key

/-- What `Vec::sort_unstable_by(cmp)` (header `sus/collections/vec.h`) makes of
the vector `collected`: the same entries, reordered so that none is greater
than a later one.  The order it gives to entries that compare equal is not
determined. -/
def SortedUnstableBy {α : Type} (cmp : α → α → Ordering) (collected sorted : List α) : Prop :=
  sorted.Perm collected ∧ sorted.Pairwise (fun a b => cmp a b ≠ .gt)

/-- The two vectors that the loop of `generate_record` over `element.fields`
fills. -/
structure FieldLists where
  sorted_static_fields : List (SortedByName Nat)
  sorted_fields : List (SortedByName Nat)
  deriving Repr

/-- One iteration of the loop of `generate_record` over `element.fields`. -/
def collect_field (lists : FieldLists) (entry : Nat × FieldElement) : FieldLists :=
  if entry.2.hidden then lists
  else if entry.2.is_static then
    { lists with
      sorted_static_fields := push lists.sorted_static_fields
        { name := entry.2.name, sort_key := entry.2.sort_key, id := entry.1 } }
  else
    { lists with
      sorted_fields := push lists.sorted_fields
        { name := entry.2.name, sort_key := entry.2.sort_key, id := entry.1 } }

/-- The loop of `generate_record` over `element.fields`: the values of
`sorted_static_fields` and `sorted_fields` before they are sorted. -/
def collect_fields (element : RecordElement) : FieldLists :=
  element.fields.foldl collect_field { sorted_static_fields := [], sorted_fields := [] }

/-- The member function `at` of a map: the value stored under `key`; `none`
when there is no such key and it throws `std::out_of_range`. -/
def map_at {K V : Type} [DecidableEq K] : List (K × V) → K → Option V
  | [], _ => none
  | entry :: rest, key => if entry.1 = key then some entry.2 else map_at rest key

/-- The member function `count` of a map: `1` when `key` is a key of the map,
`0` when it is not. -/
def map_count {K V : Type} [DecidableEq K] (map : List (K × V)) (key : K) : Nat :=
  if (map_at map key).isSome then 1 else 0

/-- The enumerators of `MethodType`, by their values. -/
def SpecialMethods : Nat := 0

/-- The second enumerator of `MethodType`. -/
def StaticMethods : Nat := 1

/-- The third enumerator of `MethodType`. -/
def NonStaticMethods : Nat := 2

/-- The fourth enumerator of `MethodType`. -/
def NonStaticOperators : Nat := 3

/-- How the evaluation of the lambda that initialises `func` in
`generate_record_methods` ends: it returns a function element, a map's `at`
throws `std::out_of_range`, or control reaches `sus::unreachable()`. -/
inductive Found where
  | element (func : FunctionElement)
  | out_of_range
  | unreachable
  deriving DecidableEq, Repr

/-- The result of `map.at(key)` as the end of the lambda. -/
def Found.at (map : List (FunctionId × FunctionElement)) (key : FunctionId) : Found :=
  match map_at map key with
  | some func => .element func
  | none => .out_of_range

/-- The lambda that initialises `func` in `generate_record_methods`, for the
method type `type` (the value of a `MethodType`) and the id `function_id`. -/
def generate_record_methods.func (element : RecordElement) (type : Nat)
    (function_id : FunctionId) : Found :=
  if type = SpecialMethods then
    if map_count element.ctors function_id ≠ 0 then Found.at element.ctors function_id
    else if map_count element.dtors function_id ≠ 0 then Found.at element.dtors function_id
    else Found.at element.conversions function_id
  else if type = StaticMethods then Found.at element.methods function_id
  else if type = NonStaticMethods then Found.at element.methods function_id
  else if type = NonStaticOperators then Found.at element.methods function_id
  else .unreachable

/-- The lookups of `generate_record_methods`: the end of the lambda for each
entry of `methods`, in order. -/
def generate_record_methods (element : RecordElement) (type : Nat)
    (methods : List (SortedByName FunctionId)) : List Found :=
  methods.map (fun method => generate_record_methods.func element type method.id)

/-- The lookups of `generate_record_fields`: the result of
`element.fields.at(field_unique_symbol)` for each entry of `fields`, in
order. -/
def generate_record_fields (element : RecordElement) (fields : List (SortedByName Nat)) :
    List (Option FieldElement) :=
  fields.map (fun field => map_at element.fields field.id)

/-- The six vectors of `generate_record` after its calls of
`sort_unstable_by`. -/
structure SortedVectors where
  sorted_static_fields : List (SortedByName Nat)
  sorted_fields : List (SortedByName Nat)
  sorted_special_methods : List (SortedByName FunctionId)
  sorted_static_methods : List (SortedByName FunctionId)
  sorted_methods : List (SortedByName FunctionId)
  sorted_operators : List (SortedByName FunctionId)
  deriving Repr

/-- The vectors `sorted` are what the calls of `sort_unstable_by` in
`generate_record` make of the vectors its loops fill for `element`. -/
def generate_record.Sorts (element : RecordElement) (sorted : SortedVectors) : Prop :=
  SortedUnstableBy compare_by_name (collect_fields element).sorted_static_fields
      sorted.sorted_static_fields
    ∧ SortedUnstableBy compare_by_name (collect_fields element).sorted_fields
      sorted.sorted_fields
    ∧ SortedUnstableBy compare_special (collect_special_methods element)
      sorted.sorted_special_methods
    ∧ SortedUnstableBy compare_by_name (collect_methods element).sorted_static_methods
      sorted.sorted_static_methods
    ∧ SortedUnstableBy compare_by_name (collect_methods element).sorted_methods
      sorted.sorted_methods
    ∧ SortedUnstableBy compare_by_name (collect_methods element).sorted_operators
      sorted.sorted_operators

/-- The title that `generate_record` builds in the `std::ostringstream` and
passes to `generate_head`. -/
def generate_record.title (element : RecordElement) : List Char :=
  let title : List Char := []
  let title := element.namespace_path.reverse.foldl
    (fun title n =>
      match n with
      | .Global => title
      | .Anonymous => title ++ "(anonymous)".toList ++ "::".toList
      | .Named name => title ++ name ++ "::".toList)
    title
  let title := element.record_path.reverse.foldl
    (fun title record_name => title ++ record_name ++ "::".toList)
    title
  title ++ element.name

/-- What a namespace contributes to the title, in the words of the claim:
nothing for the global namespace, "(anonymous)::" for an anonymous one, and
the name followed by "::" for a named one. -/
def title_part (n : Namespace) : List Char :=
  match n with
  | .Global => []
  | .Anonymous => "(anonymous)::".toList
  | .Named name => name ++ "::".toList

/-- A record `S` nested in `Outer::Inner` in the namespace `a::(anonymous)::b`,
with a static field, a field, a hidden field, a constructor, a destructor, a
conversion, a static method, two overloads of a method, an operator and a
hidden method. -/
def sample_record : RecordElement where
  name := "S".toList
  namespace_path := [.Named "b".toList, .Anonymous, .Named "a".toList, .Global]
  record_path := ["Inner".toList, "Outer".toList]
  hidden := false
  fields :=
    [(1, { name := "count".toList, sort_key := 0, is_static := true, hidden := false }),
     (2, { name := "x".toList, sort_key := 1, is_static := false, hidden := false }),
     (3, { name := "pad".toList, sort_key := 2, is_static := false, hidden := true })]
  ctors :=
    [({ is_static := false, key := 10 },
      { name := "S".toList, sort_key := 0, is_operator := false, hidden := false })]
  dtors :=
    [({ is_static := false, key := 11 },
      { name := "~S".toList, sort_key := 0, is_operator := false, hidden := false })]
  conversions :=
    [({ is_static := false, key := 12 },
      { name := "operator int".toList, sort_key := 0, is_operator := false, hidden := false })]
  methods :=
    [({ is_static := true, key := 20 },
      { name := "make".toList, sort_key := 0, is_operator := false, hidden := false }),
     ({ is_static := false, key := 21 },
      { name := "get".toList, sort_key := 1, is_operator := false, hidden := false }),
     ({ is_static := false, key := 22 },
      { name := "get".toList, sort_key := 0, is_operator := false, hidden := false }),
     ({ is_static := false, key := 23 },
      { name := "operator==".toList, sort_key := 0, is_operator := true, hidden := false }),
     ({ is_static := false, key := 24 },
      { name := "secret".toList, sort_key := 0, is_operator := false, hidden := true })]

/-- The vectors of `generate_record` for the sample record, sorted. -/
def sample_sorted : SortedVectors where
  sorted_static_fields := [{ name := "count".toList, sort_key := 0, id := 1 }]
  sorted_fields := [{ name := "x".toList, sort_key := 1, id := 2 }]
  sorted_special_methods :=
    [{ name := "S".toList, sort_key := 0, id := { is_static := false, key := 10 } },
     { name := "operator int".toList, sort_key := 0, id := { is_static := false, key := 12 } },
     { name := "~S".toList, sort_key := 0, id := { is_static := false, key := 11 } }]
  sorted_static_methods :=
    [{ name := "make".toList, sort_key := 0, id := { is_static := true, key := 20 } }]
  sorted_methods :=
    [{ name := "get".toList, sort_key := 0, id := { is_static := false, key := 22 } },
     { name := "get".toList, sort_key := 1, id := { is_static := false, key := 21 } }]
  sorted_operators :=
    [{ name := "operator==".toList, sort_key := 0, id := { is_static := false, key := 23 } }]

end subdoc.gen

namespace sus.mem

/-! ## Basic facts -/

theorem foldl_and_eq_all (f : CppType → Bool) (Ts : List CppType) (b : Bool) :
    Ts.foldl (fun acc U => acc && f U) b = (b && Ts.all f) := by
  induction Ts generalizing b with
  | nil => simp
  | cons T Ts ih => simp [List.foldl_cons, ih, Bool.and_assoc]

theorem TriviallyRelocatable_eq_all (c : Toolchain) (Ts : List CppType) :
    TriviallyRelocatable c Ts = Ts.all (TriviallyRelocatable_impl c) := by
  cases Ts with
  | nil => rfl
  | cons T Ts => simp [TriviallyRelocatable, foldl_and_eq_all]

theorem TriviallyRelocatable_singleton (c : Toolchain) (T : CppType) :
    TriviallyRelocatable c [T] = TriviallyRelocatable_impl c T := by
  simp [TriviallyRelocatable]

theorem remove_reference_t_of_not_reference (T : CppType) (h : is_reference_v T = false) :
    remove_reference_t T = T := by
  cases T <;> simp_all [is_reference_v, remove_reference_t]

theorem remove_all_extents_t_array (T : CppType) (extent : Option Nat) :
    remove_all_extents_t (.array T extent) = remove_all_extents_t T := by
  simp [remove_all_extents_t]

/-- The value of `TriviallyRelocatable_impl<T>` for a `T` that is not a
reference, with the redundant `remove_reference_t` dropped. -/
theorem TriviallyRelocatable_impl_of_not_reference (c : Toolchain) (T : CppType)
    (h : is_reference_v T = false) :
    TriviallyRelocatable_impl c T =
      ((!(c.is_volatile_v (remove_all_extents_t T)))
        && (c.data_size_of (remove_all_extents_t T) != size_t c (-1))
        && (relocatable_tag.value c (remove_all_extents_t T)
            || c.is_trivially_copyable_v (remove_all_extents_t T)
            || (c.is_trivially_move_constructible_v (remove_all_extents_t T)
                && c.is_trivially_move_assignable_v (remove_all_extents_t T)
                && c.is_trivially_destructible_v (remove_all_extents_t T))
            || (c.has_extension_trivially_relocatable
                && c.is_trivially_relocatable (remove_all_extents_t T)))) := by
  simp [TriviallyRelocatable_impl, h, remove_reference_t_of_not_reference T h]

/-- The value of `TriviallyRelocatable<T>` for a `T` that is not a reference,
is not volatile, has a data size and whose member `SusUnsafeTrivialRelocate`
has the value `v`. -/
theorem TriviallyRelocatable_of_member (c : Toolchain) (T : CppType) (v : Bool)
    (href : is_reference_v T = false)
    (hvol : c.is_volatile_v (remove_all_extents_t T) = false)
    (hsize : c.data_size_of (remove_all_extents_t T) ≠ size_t c (-1))
    (hdecl : c.SusUnsafeTrivialRelocate (remove_all_extents_t T) = some v) :
    TriviallyRelocatable c [T] =
      (v
        || c.is_trivially_copyable_v (remove_all_extents_t T)
        || (c.is_trivially_move_constructible_v (remove_all_extents_t T)
            && c.is_trivially_move_assignable_v (remove_all_extents_t T)
            && c.is_trivially_destructible_v (remove_all_extents_t T))
        || (c.has_extension_trivially_relocatable
            && c.is_trivially_relocatable (remove_all_extents_t T))) := by
  rw [TriviallyRelocatable_singleton, TriviallyRelocatable_impl_of_not_reference c T href]
  simp [hvol, hsize, relocatable_tag.value, hdecl]

/-! ## The Oracle's rule -/

/-- C1: a group of types satisfies `TriviallyRelocatable` if and only if every
member `T` is a reference, or else `T` (with its array extents removed) is not
volatile, has a data size other than `size_t(-1)`, and at least one of these
holds: its declaration `SusUnsafeTrivialRelocate` evaluates true, it is
trivially copyable, it is trivially move-constructible and trivially
move-assignable and trivially destructible, or the platform has the
`trivially_relocatable` extension and marks it trivially relocatable (the
trivial-ABI attribute). -/
theorem C1_classify_iff_rule (c : Toolchain) (Ts : List CppType) :
    TriviallyRelocatable c Ts = true ↔
      ∀ T ∈ Ts,
        is_reference_v T = true ∨
          (c.is_volatile_v (remove_all_extents_t T) = false
            ∧ c.data_size_of (remove_all_extents_t T) ≠ size_t c (-1)
            ∧ (relocatable_tag.value c (remove_all_extents_t T) = true
                ∨ c.is_trivially_copyable_v (remove_all_extents_t T) = true
                ∨ (c.is_trivially_move_constructible_v (remove_all_extents_t T) = true
                    ∧ c.is_trivially_move_assignable_v (remove_all_extents_t T) = true
                    ∧ c.is_trivially_destructible_v (remove_all_extents_t T) = true)
                ∨ (c.has_extension_trivially_relocatable = true
                    ∧ c.is_trivially_relocatable (remove_all_extents_t T) = true))) := by
  rw [TriviallyRelocatable_eq_all, List.all_eq_true]
  refine forall_congr' fun T => imp_congr_right fun _ => ?_
  cases h : is_reference_v T with
  | true => simp [TriviallyRelocatable_impl, h]
  | false =>
    rw [TriviallyRelocatable_impl_of_not_reference c T h]
    simp [Bool.and_eq_true, Bool.or_eq_true, or_assoc, and_assoc]

/-! ## Declarations and automatic detection -/

/-- C2, as stated, fails: `Tagged<S>` is not a reference, is not volatile, has
a data size, and carries the declaration
`sus_class_trivially_relocatable_if_types(marker, S)`, whose value is `false`;
it is trivially copyable, and `TriviallyRelocatable<Tagged<S>>` is `true`, not
the value of the declaration. -/
theorem C2_false_declaration_not_preferred :
    is_reference_v (.named 7) = false
      ∧ clang64.is_volatile_v (remove_all_extents_t (.named 7)) = false
      ∧ clang64.data_size_of (remove_all_extents_t (.named 7)) ≠ size_t clang64 (-1)
      ∧ Declares clang64 (remove_all_extents_t (.named 7))
          (sus_class_trivially_relocatable_if_types clang64 (.named 9) [.named 1])
      ∧ clang64.SusUnsafeTrivialRelocate (remove_all_extents_t (.named 7)) = some false
      ∧ clang64.is_trivially_copyable_v (remove_all_extents_t (.named 7)) = true
      ∧ TriviallyRelocatable clang64 [.named 7] = true := by
  unfold Declares
  decide

/-- C2, amended: for a type `T` that is not a reference, is not volatile, has a
data size and carries a declaration of value `v`, `TriviallyRelocatable<T>` is
`v` or-ed with automatic detection (trivially copyable, or trivially
move-constructible and move-assignable and destructible, or trivially
relocatable for the platform); so it is `true` when `v` is `true`, and equals
automatic detection when `v` is `false`. -/
theorem C2_declaration_or_detection (c : Toolchain) (T : CppType) (v : Bool)
    (href : is_reference_v T = false)
    (hvol : c.is_volatile_v (remove_all_extents_t T) = false)
    (hsize : c.data_size_of (remove_all_extents_t T) ≠ size_t c (-1))
    (hdecl : c.SusUnsafeTrivialRelocate (remove_all_extents_t T) = some v) :
    TriviallyRelocatable c [T] =
      (v
        || c.is_trivially_copyable_v (remove_all_extents_t T)
        || (c.is_trivially_move_constructible_v (remove_all_extents_t T)
            && c.is_trivially_move_assignable_v (remove_all_extents_t T)
            && c.is_trivially_destructible_v (remove_all_extents_t T))
        || (c.has_extension_trivially_relocatable
            && c.is_trivially_relocatable (remove_all_extents_t T))) :=
  TriviallyRelocatable_of_member c T v href hvol hsize hdecl

/-- C2, amended, at `Box<S>`: its declaration evaluates `false`, nothing is
detected automatically, and `TriviallyRelocatable<Box<S>>` is `false`. -/
theorem C2_declaration_or_detection_witness :
    clang64.SusUnsafeTrivialRelocate (remove_all_extents_t (.named 5)) = some false
      ∧ TriviallyRelocatable clang64 [.named 5] = false :=
  ⟨by decide,
    (C2_declaration_or_detection clang64 (.named 5) false (by decide) (by decide) (by decide)
      (by decide)).trans (by decide)⟩

/-- C3, as stated, fails: `Abi` has a non-trivial destructor (it is neither
trivially destructible nor trivially copyable) and no declaration, but it is
marked `[[clang::trivial_abi]]` and `TriviallyRelocatable<Abi>` is `true`. -/
theorem C3_trivial_abi_with_destructor :
    is_reference_v (.named 6) = false
      ∧ clang64.is_trivially_destructible_v (remove_all_extents_t (.named 6)) = false
      ∧ clang64.is_trivially_copyable_v (remove_all_extents_t (.named 6)) = false
      ∧ clang64.SusUnsafeTrivialRelocate (remove_all_extents_t (.named 6)) = none
      ∧ TriviallyRelocatable clang64 [.named 6] = true := by
  decide

/-- C3, amended: for a type `T` that is not a reference, has a non-trivial
destructor (so is neither trivially destructible nor trivially copyable), has
no declaration, and is not marked trivially relocatable by a platform with the
`trivially_relocatable` extension, `TriviallyRelocatable<T>` is `false`. -/
theorem C3_destructor_no_declaration (c : Toolchain) (T : CppType)
    (href : is_reference_v T = false)
    (hdtor : c.is_trivially_destructible_v (remove_all_extents_t T) = false)
    (hcopy : c.is_trivially_copyable_v (remove_all_extents_t T) = false)
    (hdecl : c.SusUnsafeTrivialRelocate (remove_all_extents_t T) = none)
    (habi : (c.has_extension_trivially_relocatable
              && c.is_trivially_relocatable (remove_all_extents_t T)) = false) :
    TriviallyRelocatable c [T] = false := by
  rw [TriviallyRelocatable_singleton, TriviallyRelocatable_impl_of_not_reference c T href]
  simp only [Bool.and_eq_false_iff] at habi
  rcases habi with habi | habi <;> simp [hdtor, hcopy, relocatable_tag.value, hdecl, habi]

/-- C3, amended, at the array `S[5]` of a class with a user-provided
destructor. -/
theorem C3_destructor_no_declaration_witness :
    TriviallyRelocatable clang64 [.array (.named 1) (some 5)] = false :=
  C3_destructor_no_declaration clang64 (.array (.named 1) (some 5)) (by decide) (by decide)
    (by decide) (by decide) (by decide)

/-- C4: a type `T` that is not a reference and is volatile, or is an array
whose element type is volatile, does not satisfy `TriviallyRelocatable`,
whatever the toolchain answers to every other question about it, and no group
that contains `T` satisfies it. -/
theorem C4_volatile_excluded (c : Toolchain) (T : CppType)
    (href : is_reference_v T = false)
    (hvol : c.is_volatile_v (remove_all_extents_t T) = true) :
    TriviallyRelocatable c [T] = false
      ∧ ∀ Ts : List CppType, T ∈ Ts → TriviallyRelocatable c Ts = false := by
  have himpl : TriviallyRelocatable_impl c T = false := by
    rw [TriviallyRelocatable_impl_of_not_reference c T href]
    simp [hvol]
  refine ⟨by rw [TriviallyRelocatable_singleton, himpl], fun Ts hT => ?_⟩
  rw [TriviallyRelocatable_eq_all, List.all_eq_false]
  exact ⟨T, hT, by simp [himpl]⟩

/-- C4 at `volatile Raw[5]`, whose element type carries the unchecked
declaration, and at `volatile int`, which is trivially copyable and trivially
relocatable for the platform, in a group with `int`. -/
theorem C4_volatile_excluded_witness :
    clang64.SusUnsafeTrivialRelocate (.named 11) = some true
      ∧ TriviallyRelocatable clang64 [.array (.named 11) (some 5)] = false
      ∧ clang64.is_trivially_copyable_v (.named 2) = true
      ∧ TriviallyRelocatable clang64 [.named 0, .named 2] = false :=
  ⟨by decide,
    (C4_volatile_excluded clang64 (.array (.named 11) (some 5)) (by decide) (by decide)).1,
    by decide,
    (C4_volatile_excluded clang64 (.named 2) (by decide) (by decide)).2 [.named 0, .named 2]
      (by decide)⟩

/-! ## The declaration macros -/

theorem static_assert_eq_nil (cond : Bool) (message : String) :
    static_assert cond message = [] ↔ cond = true := by
  cases cond <;> simp [static_assert]

theorem TriviallyRelocatable_of_declared_true (c : Toolchain) (T : CppType)
    (href : is_reference_v T = false)
    (hvol : c.is_volatile_v (remove_all_extents_t T) = false)
    (hsize : c.data_size_of (remove_all_extents_t T) ≠ size_t c (-1))
    (hdecl : c.SusUnsafeTrivialRelocate (remove_all_extents_t T) = some true) :
    TriviallyRelocatable c [T] = true := by
  rw [TriviallyRelocatable_of_member c T true href hvol hsize hdecl]
  simp

/-- C5: when `Box<P>` is not a reference, is not volatile, has a data size,
declares `sus_class_trivially_relocatable_if_types(marker, P)`, and is neither
trivially copyable, nor trivially move-constructible and move-assignable and
destructible, nor trivially relocatable for the platform, then
`TriviallyRelocatable<Box<P>>` equals `TriviallyRelocatable<P>`; and there are
such a `Box<P>` with `P` relocatable and such a `Box<P>` with `P` not
relocatable. -/
theorem C5_conditional_on_types :
    (∀ (c : Toolchain) (Box P marker_type : CppType),
        is_reference_v Box = false →
        c.is_volatile_v (remove_all_extents_t Box) = false →
        c.data_size_of (remove_all_extents_t Box) ≠ size_t c (-1) →
        Declares c (remove_all_extents_t Box)
          (sus_class_trivially_relocatable_if_types c marker_type [P]) →
        c.is_trivially_copyable_v (remove_all_extents_t Box) = false →
        (c.is_trivially_move_constructible_v (remove_all_extents_t Box)
          && c.is_trivially_move_assignable_v (remove_all_extents_t Box)
          && c.is_trivially_destructible_v (remove_all_extents_t Box)) = false →
        (c.has_extension_trivially_relocatable
          && c.is_trivially_relocatable (remove_all_extents_t Box)) = false →
        TriviallyRelocatable c [Box] = TriviallyRelocatable c [P])
      ∧ (Declares clang64 (.named 4)
            (sus_class_trivially_relocatable_if_types clang64 (.named 9) [.named 0])
          ∧ TriviallyRelocatable clang64 [.named 0] = true
          ∧ TriviallyRelocatable clang64 [.named 4] = TriviallyRelocatable clang64 [.named 0])
      ∧ (Declares clang64 (.named 5)
            (sus_class_trivially_relocatable_if_types clang64 (.named 9) [.named 1])
          ∧ TriviallyRelocatable clang64 [.named 1] = false
          ∧ TriviallyRelocatable clang64 [.named 5] = TriviallyRelocatable clang64 [.named 1]) := by
  refine ⟨?_, ?_, ?_⟩
  · intro c Box P marker_type href hvol hsize hdecl hcopy hmove habi
    have hmember := hdecl.2
    simp only [sus_class_trivially_relocatable_if_types] at hmember
    rw [TriviallyRelocatable_of_member c Box _ href hvol hsize hmember, hcopy, hmove, habi]
    simp
  · unfold Declares
    decide
  · unfold Declares
    decide

/-- C5 at `Box<int>` and `int`. -/
theorem C5_conditional_on_types_witness :
    TriviallyRelocatable clang64 [.named 4] = TriviallyRelocatable clang64 [.named 0] :=
  C5_conditional_on_types.1 clang64 (.named 4) (.named 0) (.named 9) (by decide) (by decide)
    (by decide) (by unfold Declares; decide) (by decide) (by decide) (by decide)

/-- C6: with the marker argument `unsafe_fn`, the expansion of
`sus_class_trivially_relocatable(unsafe_fn, Ts...)` compiles if and only if
every listed type is trivially relocatable; a type that is not a reference, is
not volatile, has a data size and declares it is trivially relocatable; and
when some listed type is not trivially relocatable the one `static_assert`
that fails is "Type is not trivially relocatable". -/
theorem C6_unconditional (c : Toolchain) (marker_type : CppType) (Ts : List CppType)
    (hmarker : is_same_v marker_type c.UnsafeFnMarker = true) :
    ((sus_class_trivially_relocatable c marker_type Ts).diagnostics = [] ↔
        ∀ T ∈ Ts, TriviallyRelocatable c [T] = true)
      ∧ (∀ X : CppType,
          is_reference_v X = false →
          c.is_volatile_v (remove_all_extents_t X) = false →
          c.data_size_of (remove_all_extents_t X) ≠ size_t c (-1) →
          Declares c (remove_all_extents_t X) (sus_class_trivially_relocatable c marker_type Ts) →
          TriviallyRelocatable c [X] = true)
      ∧ ((∃ T ∈ Ts, TriviallyRelocatable c [T] = false) →
          (sus_class_trivially_relocatable c marker_type Ts).diagnostics
            = ["Type is not trivially relocatable"]) := by
  have hdiag : (sus_class_trivially_relocatable c marker_type Ts).diagnostics
      = static_assert (TriviallyRelocatable c Ts) "Type is not trivially relocatable" := by
    simp [sus_class_trivially_relocatable, sus_class_trivially_relocatable_if_types, hmarker,
      static_assert]
  have hall : TriviallyRelocatable c Ts = true ↔ ∀ T ∈ Ts, TriviallyRelocatable c [T] = true := by
    simp [TriviallyRelocatable_eq_all]
  refine ⟨?_, ?_, ?_⟩
  · rw [hdiag, static_assert_eq_nil, hall]
  · intro X href hvol hsize hdecl
    have hok : TriviallyRelocatable c Ts = true := by
      have h := hdecl.1
      rwa [hdiag, static_assert_eq_nil] at h
    have hmember := hdecl.2
    simp only [sus_class_trivially_relocatable, sus_class_trivially_relocatable_if_types, hok]
      at hmember
    exact TriviallyRelocatable_of_declared_true c X href hvol hsize hmember
  · rintro ⟨T, hT, hfalse⟩
    have hnot : TriviallyRelocatable c Ts = false := by
      cases hb : TriviallyRelocatable c Ts with
      | false => rfl
      | true => rw [hall.mp hb T hT] at hfalse; exact absurd hfalse (by decide)
    rw [hdiag, hnot]
    rfl

/-- C6 at `Pair`, which lists `int` and `Box<int>` and is accepted, and at the
list `int`, `S`, which is rejected. -/
theorem C6_unconditional_witness :
    (sus_class_trivially_relocatable clang64 (.named 9) [.named 0, .named 4]).diagnostics = []
      ∧ TriviallyRelocatable clang64 [.named 10] = true
      ∧ (sus_class_trivially_relocatable clang64 (.named 9) [.named 0, .named 1]).diagnostics
          = ["Type is not trivially relocatable"] :=
  ⟨(C6_unconditional clang64 (.named 9) [.named 0, .named 4] (by decide)).1.mpr (by decide),
    (C6_unconditional clang64 (.named 9) [.named 0, .named 4] (by decide)).2.1 (.named 10)
      (by decide) (by decide) (by decide) (by unfold Declares; decide),
    (C6_unconditional clang64 (.named 9) [.named 0, .named 1] (by decide)).2.2
      ⟨.named 1, by decide, by decide⟩⟩

/-! ## Arrays, incomplete types and references -/

theorem is_reference_v_array_of (T : CppType) (extents : List (Option Nat))
    (href : is_reference_v T = false) : is_reference_v (array_of T extents) = false := by
  cases extents with
  | nil => simpa [array_of] using href
  | cons extent rest => simp [array_of, is_reference_v]

theorem remove_all_extents_t_array_of (T : CppType) (extents : List (Option Nat)) :
    remove_all_extents_t (array_of T extents) = remove_all_extents_t T := by
  induction extents with
  | nil => rfl
  | cons extent rest ih =>
    have h : array_of T (extent :: rest) = .array (array_of T rest) extent := rfl
    rw [h, remove_all_extents_t_array, ih]

/-- C7: for a type `T` that is not a reference and any list of extents, the
array `T[n₁][n₂]...` built from `T` (bounds known or unknown) satisfies
`TriviallyRelocatable` exactly when `T` does. -/
theorem C7_array_same_as_element (c : Toolchain) (T : CppType) (extents : List (Option Nat))
    (href : is_reference_v T = false) :
    TriviallyRelocatable c [array_of T extents] = TriviallyRelocatable c [T] := by
  rw [TriviallyRelocatable_singleton, TriviallyRelocatable_singleton,
    TriviallyRelocatable_impl_of_not_reference c T href,
    TriviallyRelocatable_impl_of_not_reference c _ (is_reference_v_array_of T extents href),
    remove_all_extents_t_array_of]

/-- C7 at `int[5]`, `int[]` and `int[3][4]`, which are relocatable like `int`,
and at `S[5]`, which like `S` is not. -/
theorem C7_array_same_as_element_witness :
    array_of (.named 0) [some 3, some 4] = .array (.array (.named 0) (some 4)) (some 3)
      ∧ TriviallyRelocatable clang64 [.named 0] = true
      ∧ TriviallyRelocatable clang64 [.array (.named 0) (some 5)] = true
      ∧ TriviallyRelocatable clang64 [.array (.named 0) none] = true
      ∧ TriviallyRelocatable clang64 [.array (.array (.named 0) (some 4)) (some 3)] = true
      ∧ TriviallyRelocatable clang64 [.named 1] = false
      ∧ TriviallyRelocatable clang64 [.array (.named 1) (some 5)] = false :=
  ⟨rfl, by decide,
    (C7_array_same_as_element clang64 (.named 0) [some 5] (by decide)).trans (by decide),
    (C7_array_same_as_element clang64 (.named 0) [none] (by decide)).trans (by decide),
    (C7_array_same_as_element clang64 (.named 0) [some 3, some 4] (by decide)).trans (by decide),
    by decide,
    (C7_array_same_as_element clang64 (.named 1) [some 5] (by decide)).trans (by decide)⟩

/-- C8: a type `T` that is not a reference and has no data size
(`data_size_of` answers `size_t(-1)`, as for an incomplete type) does not
satisfy `TriviallyRelocatable`, whatever the toolchain answers to every other
question about it; the concept has a value, `false`, for it. -/
theorem C8_incomplete_is_false (c : Toolchain) (T : CppType)
    (href : is_reference_v T = false)
    (hsize : c.data_size_of (remove_all_extents_t T) = size_t c (-1)) :
    TriviallyRelocatable c [T] = false := by
  rw [TriviallyRelocatable_singleton, TriviallyRelocatable_impl_of_not_reference c T href]
  simp [hsize]

/-- C8 at the forward-declared `Fwd`. -/
theorem C8_incomplete_is_false_witness :
    clang64.data_size_of (.named 3) = size_t clang64 (-1)
      ∧ TriviallyRelocatable clang64 [.named 3] = false :=
  ⟨by decide, C8_incomplete_is_false clang64 (.named 3) (by decide) (by decide)⟩

/-- C9: every reference type satisfies `TriviallyRelocatable`, whatever the
toolchain answers about the referent (its volatility, its data size, its
declaration, its destructor). -/
theorem C9_reference_is_true (c : Toolchain) (T : CppType)
    (href : is_reference_v T = true) :
    TriviallyRelocatable c [T] = true := by
  rw [TriviallyRelocatable_singleton]
  simp [TriviallyRelocatable_impl, href]

/-- C9 at `volatile int&&`, `Fwd&` (no data size), `S&` (user-provided
destructor) and `Box<S>&` (declaration of value `false`). -/
theorem C9_reference_is_true_witness :
    (clang64.is_volatile_v (.named 2) = true
        ∧ TriviallyRelocatable clang64 [.rvalue_ref (.named 2)] = true)
      ∧ (clang64.data_size_of (.named 3) = size_t clang64 (-1)
        ∧ TriviallyRelocatable clang64 [.lvalue_ref (.named 3)] = true)
      ∧ (clang64.is_trivially_destructible_v (.named 1) = false
        ∧ TriviallyRelocatable clang64 [.lvalue_ref (.named 1)] = true)
      ∧ (clang64.SusUnsafeTrivialRelocate (.named 5) = some false
        ∧ TriviallyRelocatable clang64 [.lvalue_ref (.named 5)] = true) :=
  ⟨⟨by decide, C9_reference_is_true clang64 (.rvalue_ref (.named 2)) (by decide)⟩,
    ⟨by decide, C9_reference_is_true clang64 (.lvalue_ref (.named 3)) (by decide)⟩,
    ⟨by decide, C9_reference_is_true clang64 (.lvalue_ref (.named 1)) (by decide)⟩,
    ⟨by decide, C9_reference_is_true clang64 (.lvalue_ref (.named 5)) (by decide)⟩⟩

/-- C10: with the marker argument `unsafe_fn`, the expansion of
`sus_class_trivially_relocatable_unchecked(unsafe_fn)` always compiles (it
takes no list of types and asserts nothing about any), and a type that is not
a reference, is not volatile, has a data size and declares it is trivially
relocatable, whatever the toolchain answers to every other question about
it. -/
theorem C10_unchecked (c : Toolchain) (marker_type : CppType)
    (hmarker : is_same_v marker_type c.UnsafeFnMarker = true) :
    (sus_class_trivially_relocatable_unchecked c marker_type).diagnostics = []
      ∧ ∀ T : CppType,
          is_reference_v T = false →
          c.is_volatile_v (remove_all_extents_t T) = false →
          c.data_size_of (remove_all_extents_t T) ≠ size_t c (-1) →
          c.SusUnsafeTrivialRelocate (remove_all_extents_t T)
            = some (sus_class_trivially_relocatable_unchecked c marker_type).SusUnsafeTrivialRelocate →
          TriviallyRelocatable c [T] = true := by
  refine ⟨by simp [sus_class_trivially_relocatable_unchecked, hmarker, static_assert], ?_⟩
  intro T href hvol hsize hdecl
  exact TriviallyRelocatable_of_declared_true c T href hvol hsize hdecl

/-- C10 at `Raw`, which has user-provided move operations and destructor. -/
theorem C10_unchecked_witness :
    clang64.is_trivially_copyable_v (.named 8) = false
      ∧ clang64.is_trivially_destructible_v (.named 8) = false
      ∧ clang64.is_trivially_relocatable (.named 8) = false
      ∧ (sus_class_trivially_relocatable_unchecked clang64 (.named 9)).diagnostics = []
      ∧ TriviallyRelocatable clang64 [.named 8] = true :=
  ⟨by decide, by decide, by decide,
    (C10_unchecked clang64 (.named 9) (by decide)).1,
    (C10_unchecked clang64 (.named 9) (by decide)).2 (.named 8) (by decide) (by decide)
      (by decide) (by decide)⟩

/-! ## The lookup of a declaration -/

/-- C11: the value `relocatable_tag<T>::value(0)` that the concept reads is
`false` when `T` has no member `SusUnsafeTrivialRelocate`; it is
`TriviallyRelocatable` of the listed types when the member is the one that
`sus_class_trivially_relocatable` or `sus_class_trivially_relocatable_if_types`
defines; it is the given boolean when the member is the one that
`sus_class_trivially_relocatable_if` defines; and it is `true` when the member
is the one that `sus_class_trivially_relocatable_unchecked` defines.  The four
forms define the same member, read by the same function. -/
theorem C11_tag_value_of_forms (c : Toolchain) (T : CppType) :
    (c.SusUnsafeTrivialRelocate T = none → relocatable_tag.value c T = false)
      ∧ (∀ (marker_type : CppType) (Ts : List CppType),
          c.SusUnsafeTrivialRelocate T
              = some (sus_class_trivially_relocatable c marker_type Ts).SusUnsafeTrivialRelocate →
          relocatable_tag.value c T = TriviallyRelocatable c Ts)
      ∧ (∀ (marker_type : CppType) (Ts : List CppType),
          c.SusUnsafeTrivialRelocate T
              = some (sus_class_trivially_relocatable_if_types c marker_type
                  Ts).SusUnsafeTrivialRelocate →
          relocatable_tag.value c T = TriviallyRelocatable c Ts)
      ∧ (∀ (marker_type : CppType) (is_bool is_trivially_reloc : Bool),
          c.SusUnsafeTrivialRelocate T
              = some (sus_class_trivially_relocatable_if c marker_type is_bool
                  is_trivially_reloc).SusUnsafeTrivialRelocate →
          relocatable_tag.value c T = is_trivially_reloc)
      ∧ (∀ marker_type : CppType,
          c.SusUnsafeTrivialRelocate T
              = some (sus_class_trivially_relocatable_unchecked c
                  marker_type).SusUnsafeTrivialRelocate →
          relocatable_tag.value c T = true) := by
  refine ⟨?_, ?_, ?_, ?_, ?_⟩
  · intro h
    simp [relocatable_tag.value, h]
  · intro marker_type Ts h
    simp [relocatable_tag.value, h, sus_class_trivially_relocatable,
      sus_class_trivially_relocatable_if_types]
  · intro marker_type Ts h
    simp [relocatable_tag.value, h, sus_class_trivially_relocatable_if_types]
  · intro marker_type is_bool is_trivially_reloc h
    simp [relocatable_tag.value, h, sus_class_trivially_relocatable_if]
  · intro marker_type h
    simp [relocatable_tag.value, h, sus_class_trivially_relocatable_unchecked]

/-- C11 at `S` (no declaration), `Pair` (unconditional over `int` and
`Box<int>`), `Box<S>` (conditional on `S`), `Flag` (conditional on the
expression `false`) and `Raw` (unchecked). -/
theorem C11_tag_value_of_forms_witness :
    relocatable_tag.value clang64_flag (.named 1) = false
      ∧ relocatable_tag.value clang64_flag (.named 10)
          = TriviallyRelocatable clang64_flag [.named 0, .named 4]
      ∧ relocatable_tag.value clang64_flag (.named 5)
          = TriviallyRelocatable clang64_flag [.named 1]
      ∧ relocatable_tag.value clang64_flag (.named 12) = false
      ∧ relocatable_tag.value clang64_flag (.named 8) = true :=
  ⟨(C11_tag_value_of_forms clang64_flag (.named 1)).1 (by decide),
    (C11_tag_value_of_forms clang64_flag (.named 10)).2.1 (.named 9) [.named 0, .named 4]
      (by decide),
    (C11_tag_value_of_forms clang64_flag (.named 5)).2.2.1 (.named 9) [.named 1] (by decide),
    (C11_tag_value_of_forms clang64_flag (.named 12)).2.2.2.1 (.named 9) true false (by decide),
    (C11_tag_value_of_forms clang64_flag (.named 8)).2.2.2.2 (.named 9) (by decide)⟩

/-- C12: a plain scalar type, that is a type that is not a reference, is not
volatile, has a data size and is trivially copyable, satisfies
`TriviallyRelocatable`; it needs no declaration. -/
theorem C12_plain_scalar (c : Toolchain) (T : CppType)
    (href : is_reference_v T = false)
    (hvol : c.is_volatile_v (remove_all_extents_t T) = false)
    (hsize : c.data_size_of (remove_all_extents_t T) ≠ size_t c (-1))
    (hcopy : c.is_trivially_copyable_v (remove_all_extents_t T) = true)
    (_hdecl : c.SusUnsafeTrivialRelocate (remove_all_extents_t T) = none) :
    TriviallyRelocatable c [T] = true := by
  rw [TriviallyRelocatable_singleton, TriviallyRelocatable_impl_of_not_reference c T href]
  simp [hvol, hsize, hcopy]

/-- C12 at `int`. -/
theorem C12_plain_scalar_witness : TriviallyRelocatable clang64 [.named 0] = true :=
  C12_plain_scalar clang64 (.named 0) (by decide) (by decide) (by decide) (by decide)
    (by decide)

end sus.mem

/-! # Theorems on the invariant gate -/

namespace sus.assertions

/-- C13: `check(true, location)` returns and leaves the state of the process
as it was; `check(false, location)` calls `panic` with that `location` and the
process terminates in the state `panic` leaves, which under the reporting
handlers is the sink extended by exactly that location, with no message; so
`check` terminates the process exactly when `cond` is false. -/
theorem C13_check {σ : Type} (h : PanicHandlers σ) (location : source_location) (state : σ) :
    check h true location state = .returns state
      ∧ check h false location state = .terminates (h.panic location state)
      ∧ (∀ sink : List Diagnostic,
          check reporting false location sink
            = .terminates (sink ++ [{ message := none, location := location }]))
      ∧ ∀ cond : Bool,
          (∃ final : σ, check h cond location state = .terminates final) ↔ cond = false := by
  refine ⟨rfl, rfl, fun _ => rfl, fun cond => ?_⟩
  cases cond <;> simp [check]

/-- C14: `check_with_message(true, msg, location)` returns and leaves the state
of the process as it was; `check_with_message(false, msg, location)` calls
`panic_with_message` with that `msg` and `location` and the process terminates
in the state it leaves, which under the reporting handlers is the sink extended
by exactly that message and location; the overloads for `std::string_view` and
`const std::string&` do the same as the one for `const char*`. -/
theorem C14_check_with_message {σ : Type} (h : PanicHandlers σ) (msg : String)
    (location : source_location) (state : σ) :
    check_with_message h true msg location state = .returns state
      ∧ check_with_message h false msg location state
          = .terminates (h.panic_with_message msg location state)
      ∧ (∀ sink : List Diagnostic,
          check_with_message reporting false msg location sink
            = .terminates (sink ++ [{ message := some msg, location := location }]))
      ∧ ∀ cond : Bool,
          check_with_message_string_view h cond msg location state
              = check_with_message h cond msg location state
            ∧ check_with_message_string h cond msg location state
              = check_with_message h cond msg location state :=
  ⟨rfl, rfl, fun _ => rfl, fun _ => ⟨rfl, rfl⟩⟩

end sus.assertions

/-! # Theorems on the cloning adapter -/

namespace sus.iter

variable {σ Item Item' : Type}

theorem Cloned.next_result (I : InnerSizedIter σ Item) (clone : Item → Item')
    (self : Cloned σ) :
    (Cloned.next I clone self).1 = (I.next self.next_iter_).1.map clone := rfl

theorem Cloned.next_state (I : InnerSizedIter σ Item) (clone : Item → Item')
    (self : Cloned σ) :
    (Cloned.next I clone self).2.next_iter_ = (I.next self.next_iter_).2 := rfl

theorem Cloned.call_of_some (I : InnerSizedIter σ Item) (clone : Item → Item')
    (call : Call) (self : Cloned σ) (r : Option Item' × Cloned σ)
    (h : Cloned.call I clone call self = some r) :
    r.1 = (I.call call self.next_iter_).1.map clone
      ∧ r.2.next_iter_ = (I.call call self.next_iter_).2 := by
  cases call with
  | next =>
    simp only [Cloned.call, Option.some.injEq] at h
    subst h
    exact ⟨rfl, rfl⟩
  | next_back =>
    simp only [Cloned.call, Cloned.next_back] at h
    by_cases hde : I.DoubleEnded = true
    · simp only [hde, if_true, Option.some.injEq] at h
      subst h
      exact ⟨rfl, rfl⟩
    · simp [hde] at h

theorem Cloned.call_of_doubleEnded (I : InnerSizedIter σ Item) (clone : Item → Item')
    (hde : I.DoubleEnded = true) (call : Call) (self : Cloned σ) :
    Cloned.call I clone call self
      = some ((I.call call self.next_iter_).1.map clone,
          { next_iter_ := (I.call call self.next_iter_).2 }) := by
  cases call with
  | next => rfl
  | next_back => simp [Cloned.call, Cloned.next_back, hde, InnerSizedIter.call]

/-- A run of calls on `Cloned` that compiles gives the clones of what the same
calls give on the inner producer, and leaves the inner producer in the state
those calls leave it in. -/
theorem Cloned.run_of_some (I : InnerSizedIter σ Item) (clone : Item → Item')
    (calls : List Call) (self : Cloned σ) (out : List (Option Item') × Cloned σ)
    (h : Cloned.run I clone calls self = some out) :
    out.1 = (I.run calls self.next_iter_).1.map (Option.map clone)
      ∧ out.2.next_iter_ = (I.run calls self.next_iter_).2 := by
  induction calls generalizing self out with
  | nil =>
    simp only [Cloned.run, Option.some.injEq] at h
    subst h
    exact ⟨rfl, rfl⟩
  | cons call rest ih =>
    unfold Cloned.run at h
    split at h
    · exact absurd h (by simp)
    · rename_i r hcall
      split at h
      · exact absurd h (by simp)
      · rename_i rs hrest
        simp only [Option.some.injEq] at h
        subst h
        obtain ⟨h1, h2⟩ := Cloned.call_of_some I clone call self r hcall
        obtain ⟨h3, h4⟩ := ih r.2 rs hrest
        simp only [InnerSizedIter.run, List.map_cons]
        rw [h2] at h3 h4
        exact ⟨by rw [h1, h3], h4⟩

theorem Cloned.pull_eq_map (I : InnerSizedIter σ Item) (clone : Item → Item')
    (n : Nat) (self : Cloned σ) :
    Cloned.pull I clone n self = (I.pull n self.next_iter_).map (Option.map clone) := by
  induction n generalizing self with
  | zero => rfl
  | succ n ih =>
    simp only [Cloned.pull, InnerSizedIter.pull, List.map_cons]
    rw [ih]
    rfl

/-- C15: each call of `Cloned::next()` returns what `next()` of the inner
producer returns with `clone` applied to the element, and empty when the inner
producer returns empty, leaving the inner producer in the state its own
`next()` leaves it in; so when the inner producer yields the elements of `xs`
and then empty, `Cloned` yields `clone x` for each `x` of `xs`, in the same
order, and then empty.  Over `[1, 2, 3]` it yields `1`, `2`, `3`, then empty. -/
theorem C15_cloned_next (I : InnerSizedIter σ Item) (clone : Item → Item') :
    (∀ self : Cloned σ,
        (Cloned.next I clone self).1 = (I.next self.next_iter_).1.map clone
          ∧ (Cloned.next I clone self).2.next_iter_ = (I.next self.next_iter_).2
          ∧ ((I.next self.next_iter_).1 = none → (Cloned.next I clone self).1 = none))
      ∧ (∀ (self : Cloned σ) (xs : List Item),
          I.pull (xs.length + 1) self.next_iter_ = xs.map some ++ [none] →
          Cloned.pull I clone (xs.length + 1) self = (xs.map clone).map some ++ [none])
      ∧ Cloned.pull list_iter id 4 { next_iter_ := [1, 2, 3] }
          = [some 1, some 2, some 3, none] := by
  refine ⟨fun self => ⟨rfl, rfl, fun h => ?_⟩, fun self xs h => ?_, by decide⟩
  · rw [Cloned.next_result, h]
    rfl
  · rw [Cloned.pull_eq_map, h]
    simp

/-- C15 at the producer over `[1, 2, 3]`, with the clone of a number taken to
be the number doubled so that the clones can be told from the originals. -/
theorem C15_cloned_next_witness :
    Cloned.pull list_iter (fun x => 2 * x) 4 { next_iter_ := [1, 2, 3] }
      = [some 2, some 4, some 6, none] :=
  (C15_cloned_next list_iter (fun x => 2 * x)).2.1 { next_iter_ := [1, 2, 3] } [1, 2, 3]
    (by decide)

/-- C16: after any sequence of `next()` and `next_back()` calls on `Cloned`,
the inner producer is in the state the same calls on it alone leave it in, and
`Cloned::size_hint()` is the `size_hint()` of the inner producer in that state,
with the same lower bound and the same upper bound.  (`size_hint` is a `const`
member function: it has a value and no state to hand back.) -/
theorem C16_size_hint_forwarded (I : InnerSizedIter σ Item) (clone : Item → Item')
    (calls : List Call) (self : Cloned σ) (out : List (Option Item') × Cloned σ)
    (hrun : Cloned.run I clone calls self = some out) :
    out.2.next_iter_ = (I.run calls self.next_iter_).2
      ∧ Cloned.size_hint I out.2 = I.size_hint (I.run calls self.next_iter_).2
      ∧ (Cloned.size_hint I out.2).lower = (I.size_hint (I.run calls self.next_iter_).2).lower
      ∧ (Cloned.size_hint I out.2).upper
          = (I.size_hint (I.run calls self.next_iter_).2).upper := by
  have hstate := (Cloned.run_of_some I clone calls self out hrun).2
  have hhint : Cloned.size_hint I out.2 = I.size_hint (I.run calls self.next_iter_).2 := by
    rw [← hstate]
    rfl
  exact ⟨hstate, hhint, by rw [hhint], by rw [hhint]⟩

/-- C16 at the producer over `[1, 2, 3]` after `next()` and `next_back()`: one
element is left, and the size hint of `Cloned` is exactly one. -/
theorem C16_size_hint_forwarded_witness :
    Cloned.size_hint list_iter { next_iter_ := [2] } = { lower := 1, upper := some 1 } :=
  ((C16_size_hint_forwarded list_iter id [.next, .next_back] { next_iter_ := [1, 2, 3] }
      ([some 1, some 3], { next_iter_ := [2] }) rfl).2.1).trans (by decide)

/-- C18: when exhaustion of the inner producer is sticky (once its `next()`
has returned empty, its next call of `next()` returns empty too), then once
`Cloned::next()` has returned empty, every later call of `Cloned::next()`
returns empty, however many are made; and every call of `Cloned::next()` keeps
the inner producer, advanced by its own `next()` and by nothing else. -/
theorem C18_exhaustion_sticky (I : InnerSizedIter σ Item) (clone : Item → Item')
    (hsticky : ∀ s : σ, (I.next s).1 = none → (I.next (I.next s).2).1 = none)
    (self : Cloned σ) (hnone : (Cloned.next I clone self).1 = none) (n : Nat) :
    Cloned.pull I clone n (Cloned.next I clone self).2 = List.replicate n none
      ∧ ∀ other : Cloned σ,
          (Cloned.next I clone other).2.next_iter_ = (I.next other.next_iter_).2 := by
  refine ⟨?_, fun _ => rfl⟩
  induction n generalizing self with
  | zero => rfl
  | succ n ih =>
    have hinner : (I.next self.next_iter_).1 = none := by
      rw [Cloned.next_result] at hnone
      simpa using hnone
    have hnext : (Cloned.next I clone (Cloned.next I clone self).2).1 = none := by
      rw [Cloned.next_result, Cloned.next_state, hsticky _ hinner]
      rfl
    simp only [Cloned.pull, List.replicate_succ]
    rw [hnext, ih _ hnext]

/-- C18 at the producer over `[7]` once it is empty: three more calls of
`Cloned::next()` all return empty. -/
theorem C18_exhaustion_sticky_witness :
    (Cloned.next list_iter id { next_iter_ := [] }).1 = none
      ∧ Cloned.pull list_iter id 3 (Cloned.next list_iter id { next_iter_ := [] }).2
          = [none, none, none] :=
  ⟨by decide,
    (C18_exhaustion_sticky list_iter id
      (fun s h => by cases s <;> simp_all [list_iter])
      { next_iter_ := [] } (by decide) 3).1⟩

/-- C19: `Cloned::next_back()` can be called exactly when the inner producer
type has `DoubleEnded`, and then it returns the clone of what `next_back()` of
the inner producer returns. -/
theorem C19_double_ended_forwarded (I : InnerSizedIter σ Item) (clone : Item → Item')
    (self : Cloned σ) :
    (Cloned.next_back I clone self).isSome = I.DoubleEnded
      ∧ (Cloned.next_back I clone self
          = if I.DoubleEnded then
              some ((I.next_back self.next_iter_).1.map clone,
                { next_iter_ := (I.next_back self.next_iter_).2 })
            else none) := by
  cases h : I.DoubleEnded <;> simp [Cloned.next_back, h]

theorem front_items_next_some {α : Type} (calls : List Call) (x : α)
    (results : List (Option α)) :
    front_items (.next :: calls) (some x :: results) = x :: front_items calls results := by
  simp [front_items]

theorem front_items_skip {α : Type} (call : Call) (calls : List Call) (r : Option α)
    (results : List (Option α)) (h : call = .next_back ∨ r = none) :
    front_items (call :: calls) (r :: results) = front_items calls results := by
  rcases h with h | h <;> subst h
  · cases r <;> simp [front_items]
  · cases call <;> simp [front_items]

theorem back_items_next_back_some {α : Type} (calls : List Call) (x : α)
    (results : List (Option α)) :
    back_items (.next_back :: calls) (some x :: results) = x :: back_items calls results := by
  simp [back_items]

theorem back_items_skip {α : Type} (call : Call) (calls : List Call) (r : Option α)
    (results : List (Option α)) (h : call = .next ∨ r = none) :
    back_items (call :: calls) (r :: results) = back_items calls results := by
  rcases h with h | h <;> subst h
  · cases r <;> simp [back_items]
  · cases call <;> simp [back_items]

/-- Over a double-ended inner producer every run of calls on `Cloned`
compiles, gives one result per call, and splits the clones of what the inner
producer had left into what `next()` yielded, what is still left, and what
`next_back()` yielded, reversed. -/
theorem Cloned.run_partition (I : InnerSizedIter σ Item) (clone : Item → Item')
    (remaining : σ → List Item) (hde : DoubleEndedOver I remaining)
    (calls : List Call) (self : Cloned σ) :
    ∃ out : List (Option Item') × Cloned σ,
      Cloned.run I clone calls self = some out
        ∧ out.1.length = calls.length
        ∧ front_items calls out.1 ++ (remaining out.2.next_iter_).map clone
              ++ (back_items calls out.1).reverse
            = (remaining self.next_iter_).map clone := by
  induction calls generalizing self with
  | nil => exact ⟨([], self), rfl, rfl, by simp [front_items, back_items]⟩
  | cons call rest ih =>
    obtain ⟨out, hrun, hlen, hpart⟩ :=
      ih { next_iter_ := (I.call call self.next_iter_).2 }
    refine ⟨((I.call call self.next_iter_).1.map clone :: out.1, out.2), ?_, ?_, ?_⟩
    · simp only [Cloned.run, Cloned.call_of_doubleEnded I clone hde.1, hrun]
    · simp [hlen]
    · obtain ⟨hn1, hn2, hb1, hb2⟩ := hde.2 self.next_iter_
      cases call with
      | next =>
        simp only [InnerSizedIter.call] at hpart ⊢
        rw [hn2] at hpart
        rw [hn1]
        cases hrem : remaining self.next_iter_ with
        | nil =>
          rw [hrem] at hpart
          simp only [List.head?_nil, Option.map_none']
          rw [front_items_skip _ _ _ _ (Or.inr rfl), back_items_skip _ _ _ _ (Or.inl rfl)]
          simpa using hpart
        | cons x t =>
          rw [hrem] at hpart
          simp only [List.head?_cons, Option.map_some']
          rw [front_items_next_some, back_items_skip _ _ _ _ (Or.inl rfl)]
          simpa using hpart
      | next_back =>
        simp only [InnerSizedIter.call] at hpart ⊢
        rw [hb2] at hpart
        rw [hb1]
        rcases List.eq_nil_or_concat (remaining self.next_iter_) with hrem | ⟨L, b, hrem⟩
        · rw [hrem] at hpart
          rw [hrem]
          simp only [List.getLast?_nil, Option.map_none']
          rw [front_items_skip _ _ _ _ (Or.inl rfl), back_items_skip _ _ _ _ (Or.inr rfl)]
          simpa using hpart
        · rw [hrem] at hpart
          rw [hrem]
          have hdrop : (L.concat b).dropLast = L := by simp
          have hlast : (L.concat b).getLast? = some b := by simp
          rw [hdrop] at hpart
          rw [hlast, List.concat_eq_append]
          simp only [Option.map_some']
          rw [front_items_skip _ _ _ _ (Or.inl rfl), back_items_next_back_some]
          simp only [List.reverse_cons, List.map_append, List.map_cons, List.map_nil]
          rw [← List.append_assoc, hpart]

/-- C17: over an inner producer that is double-ended over the sequence it has
left, every interleaving of `next()` and `next_back()` calls on `Cloned`
compiles and gives one result per call; the clones of the sequence are, in
order, the elements `next()` yielded, the clones of what is still left, and
the elements `next_back()` yielded in reverse, so each element is yielded
exactly once; a further `next()` gives the first clone still left and a
further `next_back()` the last one; and once as many elements were yielded as
the sequence had, every further call gives empty.  Over `[1, 2, 3, 4]` the
calls `next`, `next_back`, `next`, `next_back` yield `1`, `4`, `2`, `3`, and a
fifth call, `next` or `next_back`, yields empty. -/
theorem C17_interleaving_partitions :
    (∀ (I : InnerSizedIter σ Item) (clone : Item → Item') (remaining : σ → List Item),
        DoubleEndedOver I remaining →
        ∀ (calls : List Call) (self : Cloned σ),
          ∃ out : List (Option Item') × Cloned σ,
            Cloned.run I clone calls self = some out
              ∧ out.1.length = calls.length
              ∧ front_items calls out.1 ++ (remaining out.2.next_iter_).map clone
                    ++ (back_items calls out.1).reverse
                  = (remaining self.next_iter_).map clone
              ∧ (Cloned.call I clone .next out.2).map Prod.fst
                  = some ((remaining out.2.next_iter_).map clone).head?
              ∧ (Cloned.call I clone .next_back out.2).map Prod.fst
                  = some ((remaining out.2.next_iter_).map clone).getLast?
              ∧ ((front_items calls out.1).length + (back_items calls out.1).length
                    = (remaining self.next_iter_).length →
                  ∀ call : Call, (Cloned.call I clone call out.2).map Prod.fst = some none))
      ∧ (Cloned.run list_iter id [.next, .next_back, .next, .next_back, .next]
            { next_iter_ := [1, 2, 3, 4] }).map Prod.fst
          = some [some 1, some 4, some 2, some 3, none]
      ∧ (Cloned.run list_iter id [.next, .next_back, .next, .next_back, .next_back]
            { next_iter_ := [1, 2, 3, 4] }).map Prod.fst
          = some [some 1, some 4, some 2, some 3, none] := by
  refine ⟨?_, by decide, by decide⟩
  intro I clone remaining hde calls self
  obtain ⟨out, hrun, hlen, hpart⟩ := Cloned.run_partition I clone remaining hde calls self
  obtain ⟨hn1, _, hb1, _⟩ := hde.2 out.2.next_iter_
  have hfront : (Cloned.call I clone .next out.2).map Prod.fst
      = some ((remaining out.2.next_iter_).map clone).head? := by
    rw [Cloned.call_of_doubleEnded I clone hde.1]
    simp [InnerSizedIter.call, hn1]
  have hback : (Cloned.call I clone .next_back out.2).map Prod.fst
      = some ((remaining out.2.next_iter_).map clone).getLast? := by
    rw [Cloned.call_of_doubleEnded I clone hde.1]
    simp [InnerSizedIter.call, hb1]
  refine ⟨out, hrun, hlen, hpart, hfront, hback, fun hcount call => ?_⟩
  have hlength := congrArg List.length hpart
  simp only [List.length_append, List.length_map, List.length_reverse] at hlength
  have hempty : remaining out.2.next_iter_ = [] :=
    List.eq_nil_of_length_eq_zero (by omega)
  cases call with
  | next => rw [hfront, hempty]; rfl
  | next_back => rw [hback, hempty]; rfl

/-- C17 at the producer over `[1, 2, 3, 4]` with the clone of a number taken to
be the number doubled, after the calls `next`, `next_back`, `next`. -/
theorem C17_interleaving_partitions_witness :
    ∃ out : List (Option Nat) × Cloned (List Nat),
      Cloned.run list_iter (fun x => 2 * x) [.next, .next_back, .next]
          { next_iter_ := [1, 2, 3, 4] } = some out
        ∧ out.1 = [some 2, some 8, some 4]
        ∧ out.2.next_iter_ = [3] := by
  obtain ⟨out, hrun, _⟩ :=
    C17_interleaving_partitions.1 list_iter (fun x => 2 * x) id
      ⟨rfl, fun _ => ⟨rfl, rfl, rfl, rfl⟩⟩ [.next, .next_back, .next]
      { next_iter_ := [1, 2, 3, 4] }
  refine ⟨out, hrun, ?_⟩
  have hout : out = ([some 2, some 8, some 4], { next_iter_ := [3] }) :=
    Option.some.inj (hrun.symm.trans rfl)
  rw [hout]
  exact ⟨rfl, rfl⟩

/-- C20: `Cloned::exact_size_hint()` can be called exactly when the inner
producer type has `ExactSize`; its value, in the state any sequence of calls
leaves, is the `exact_size_hint()` of the inner producer in the state the same
calls leave it in; and when that is the number of elements the inner producer
will still yield, it is the number of elements `Cloned` will still yield. -/
theorem C20_exact_size_forwarded (I : InnerSizedIter σ Item) (clone : Item → Item')
    (self : Cloned σ) :
    (Cloned.exact_size_hint I self).isSome = I.ExactSize
      ∧ (I.ExactSize = true →
          Cloned.exact_size_hint I self = some (I.exact_size_hint self.next_iter_))
      ∧ (∀ (calls : List Call) (out : List (Option Item') × Cloned σ),
          I.ExactSize = true →
          Cloned.run I clone calls self = some out →
          Cloned.exact_size_hint I out.2
            = some (I.exact_size_hint (I.run calls self.next_iter_).2))
      ∧ (∀ xs : List Item,
          I.ExactSize = true →
          I.pull (xs.length + 1) self.next_iter_ = xs.map some ++ [none] →
          I.exact_size_hint self.next_iter_ = xs.length →
          Cloned.pull I clone (xs.length + 1) self = (xs.map clone).map some ++ [none]
            ∧ Cloned.exact_size_hint I self = some (xs.map clone).length) := by
  refine ⟨?_, ?_, ?_, ?_⟩
  · cases h : I.ExactSize <;> simp [Cloned.exact_size_hint, h]
  · intro h
    simp [Cloned.exact_size_hint, h]
  · intro calls out h hrun
    rw [← (Cloned.run_of_some I clone calls self out hrun).2]
    simp [Cloned.exact_size_hint, h]
  · intro xs h hpull hexact
    refine ⟨?_, ?_⟩
    · rw [Cloned.pull_eq_map, hpull]
      simp
    · simp [Cloned.exact_size_hint, h, hexact]

/-- C20 at the producer over `[1, 2, 3]`: `Cloned` will yield three elements
and its exact size hint is three. -/
theorem C20_exact_size_forwarded_witness :
    Cloned.pull list_iter id 4 { next_iter_ := [1, 2, 3] } = [some 1, some 2, some 3, none]
      ∧ Cloned.exact_size_hint list_iter { next_iter_ := [1, 2, 3] } = some 3 :=
  (C20_exact_size_forwarded list_iter id { next_iter_ := [1, 2, 3] }).2.2.2 [1, 2, 3]
    (by decide) (by decide) (by decide)

end sus.iter

/-! # Further theorems on trivial relocatability -/

namespace sus.mem

/-- C25: `TriviallyRelocatable` of a group is the conjunction over its members:
for groups `A` and `B` it holds of `A ++ B` exactly when it holds of `A` and of
`B`; it has the same value on two groups with the same members, whatever their
order and however often each is listed; and it holds of the empty group, so a
`sus_class_trivially_relocatable_if_types` or `sus_class_trivially_relocatable`
declaration that lists no type defines the member as `true`. -/
theorem C25_group_is_conjunction (c : Toolchain) :
    (∀ A B : List CppType,
        TriviallyRelocatable c (A ++ B) = (TriviallyRelocatable c A && TriviallyRelocatable c B))
      ∧ (∀ A B : List CppType, A.Perm B → TriviallyRelocatable c A = TriviallyRelocatable c B)
      ∧ (∀ A B : List CppType,
          (∀ T, T ∈ A ↔ T ∈ B) → TriviallyRelocatable c A = TriviallyRelocatable c B)
      ∧ TriviallyRelocatable c [] = true
      ∧ (∀ marker_type : CppType,
          (sus_class_trivially_relocatable_if_types c marker_type []).SusUnsafeTrivialRelocate
              = true
            ∧ (sus_class_trivially_relocatable c marker_type []).SusUnsafeTrivialRelocate
              = true) := by
  have hmem : ∀ A B : List CppType,
      (∀ T, T ∈ A ↔ T ∈ B) → TriviallyRelocatable c A = TriviallyRelocatable c B := by
    intro A B h
    rw [TriviallyRelocatable_eq_all, TriviallyRelocatable_eq_all, Bool.eq_iff_iff,
      List.all_eq_true, List.all_eq_true]
    exact ⟨fun hA T hT => hA T ((h T).mpr hT), fun hB T hT => hB T ((h T).mp hT)⟩
  refine ⟨fun A B => ?_, fun A B h => hmem A B (fun T => h.mem_iff), hmem, rfl,
    fun _ => ⟨rfl, rfl⟩⟩
  rw [TriviallyRelocatable_eq_all, TriviallyRelocatable_eq_all, TriviallyRelocatable_eq_all,
    List.all_append]

/-- C25 at the groups `int, S` and `S, int, int`, which have the same members
and are both not relocatable. -/
theorem C25_group_is_conjunction_witness :
    TriviallyRelocatable clang64 [.named 0, .named 1]
        = TriviallyRelocatable clang64 [.named 1, .named 0, .named 0]
      ∧ TriviallyRelocatable clang64 [.named 0, .named 1] = false :=
  ⟨(C25_group_is_conjunction clang64).2.2.1 [.named 0, .named 1]
      [.named 1, .named 0, .named 0] (fun T => by simp [or_comm]),
    by decide⟩

end sus.mem

/-! # Further theorems on the cloning adapter -/

namespace sus.iter

variable {σ Item Item' : Type}

theorem list_iter_pull (s : List Nat) :
    list_iter.pull (s.length + 1) s = s.map some ++ [none] := by
  induction s with
  | nil => rfl
  | cons x xs ih =>
    have h : list_iter.pull ((x :: xs).length + 1) (x :: xs)
        = some x :: list_iter.pull (xs.length + 1) xs := rfl
    rw [h, ih]
    rfl

/-- C21: suppose that in every state `s` the inner producer will still yield
exactly `count s` elements and then empty, and that its size hint has its
lower bound at most `count s` and, when it has an upper bound, the lower bound
at most the upper bound and `count s` at most the upper bound.  Then in the
state any sequence of `next()` and `next_back()` calls leaves `Cloned` in,
`Cloned` will still yield some elements `ys` and then empty, and its size hint
has its lower bound at most the number of `ys` and, when it has an upper
bound, the lower bound at most the upper bound and the number of `ys` at most
the upper bound. -/
theorem C21_size_hint_invariant (I : InnerSizedIter σ Item) (clone : Item → Item')
    (count : σ → Nat)
    (hcount : ∀ s : σ, ∃ xs : List Item,
      xs.length = count s ∧ I.pull (count s + 1) s = xs.map some ++ [none])
    (hinv : ∀ s : σ,
      (I.size_hint s).lower ≤ count s
        ∧ ∀ u : Nat, (I.size_hint s).upper = some u →
            (I.size_hint s).lower ≤ u ∧ count s ≤ u)
    (calls : List Call) (self : Cloned σ) (out : List (Option Item') × Cloned σ)
    (_hrun : Cloned.run I clone calls self = some out) :
    ∃ ys : List Item',
      Cloned.pull I clone (ys.length + 1) out.2 = ys.map some ++ [none]
        ∧ (Cloned.size_hint I out.2).lower ≤ ys.length
        ∧ ∀ u : Nat, (Cloned.size_hint I out.2).upper = some u →
            (Cloned.size_hint I out.2).lower ≤ u ∧ ys.length ≤ u := by
  obtain ⟨xs, hlen, hpull⟩ := hcount out.2.next_iter_
  obtain ⟨hlower, hupper⟩ := hinv out.2.next_iter_
  refine ⟨xs.map clone, ?_, ?_, ?_⟩
  · rw [Cloned.pull_eq_map, List.length_map, hlen, hpull]
    simp
  · rw [List.length_map, hlen]
    exact hlower
  · intro u hu
    rw [List.length_map, hlen]
    exact hupper u hu

/-- C21 at the producer over `[1, 2, 3]` after `next()` and `next_back()`:
`Cloned` will still yield one element and its size hint is exactly one. -/
theorem C21_size_hint_invariant_witness :
    ∃ ys : List Nat,
      Cloned.pull list_iter id (ys.length + 1) { next_iter_ := [2] } = ys.map some ++ [none]
        ∧ (Cloned.size_hint list_iter { next_iter_ := [2] }).lower ≤ ys.length
        ∧ ∀ u : Nat, (Cloned.size_hint list_iter { next_iter_ := [2] }).upper = some u →
            (Cloned.size_hint list_iter { next_iter_ := [2] }).lower ≤ u ∧ ys.length ≤ u :=
  C21_size_hint_invariant list_iter id List.length
    (fun s => ⟨s, rfl, list_iter_pull s⟩)
    (fun s => ⟨Nat.le_refl _, fun u hu => by
      have h : s.length = u := Option.some.inj hu
      exact ⟨Nat.le_of_eq h, Nat.le_of_eq h⟩⟩)
    [.next, .next_back] { next_iter_ := [1, 2, 3] }
    ([some 1, some 3], { next_iter_ := [2] }) rfl

/-- C22: with `::sus::clone` as the spec describes it, what `Cloned::next()`
and `Cloned::next_back()` return is a value of its own: whatever the memory of
the source elements becomes afterwards, a caller observes in it what the source
element held at the time of the call; a borrow of the source element, which is
what the inner producer hands out, is observed to change when that element is
overwritten. -/
theorem C22_clone_independent {Val : Type} (I : InnerSizedIter σ Nat) (memory : Nat → Val)
    (self : Cloned σ) :
    (∀ later : Nat → Val,
        (Cloned.next I (clone memory) self).1.map (Produced.read later)
          = (I.next self.next_iter_).1.map memory)
      ∧ (∀ (later : Nat → Val) (r : Option (Produced Val) × Cloned σ),
          Cloned.next_back I (clone memory) self = some r →
          r.1.map (Produced.read later) = (I.next_back self.next_iter_).1.map memory)
      ∧ (∀ (address : Nat) (value : Val),
          Produced.read (write memory address value) (.borrowed address) = value) := by
  refine ⟨fun later => ?_, fun later r hr => ?_, fun address value => ?_⟩
  · rw [Cloned.next_result]
    cases (I.next self.next_iter_).1 <;> rfl
  · have h := (Cloned.call_of_some I (clone memory) .next_back self r hr).1
    rw [h]
    simp only [InnerSizedIter.call]
    cases (I.next_back self.next_iter_).1 <;> rfl
  · simp [Produced.read, write]

/-- C22 at the producer over the addresses `[0, 1]` of a memory that holds
`10` and `11`: the clone of the first element reads `10` also after that
element is overwritten with `99`, when a borrow of it reads `99`. -/
theorem C22_clone_independent_witness :
    (Cloned.next list_iter (clone (fun a => 10 + a)) { next_iter_ := [0, 1] }).1.map
        (Produced.read (write (fun a => 10 + a) 0 99)) = some 10
      ∧ Produced.read (write (fun a => 10 + a) 0 99) (.borrowed 0) = 99 :=
  ⟨((C22_clone_independent list_iter (fun a => 10 + a) { next_iter_ := [0, 1] }).1
      (write (fun a => 10 + a) 0 99)).trans rfl,
    (C22_clone_independent list_iter (fun a => 10 + a) { next_iter_ := [0, 1] }).2.2 0 99⟩

/-- C26: the declaration of `Cloned<Inner>` compiles exactly when `Inner` is
trivially relocatable; and when `Cloned<Inner>`, a class type that is not
volatile and has a data size, compiles with it, `Cloned<Inner>` is trivially
relocatable, and so is `Inner`. -/
theorem C26_cloned_declaration (c : sus.mem.Toolchain) (Inner : sus.mem.CppType) :
    ((Cloned.SusUnsafeTrivialRelocate c Inner).diagnostics = [] ↔
        sus.mem.TriviallyRelocatable c [Inner] = true)
      ∧ ∀ ClonedInner : sus.mem.CppType,
          sus.mem.is_reference_v ClonedInner = false →
          c.is_volatile_v (sus.mem.remove_all_extents_t ClonedInner) = false →
          c.data_size_of (sus.mem.remove_all_extents_t ClonedInner) ≠ sus.mem.size_t c (-1) →
          sus.mem.Declares c (sus.mem.remove_all_extents_t ClonedInner)
            (Cloned.SusUnsafeTrivialRelocate c Inner) →
          sus.mem.TriviallyRelocatable c [Inner] = true
            ∧ sus.mem.TriviallyRelocatable c [ClonedInner] = true := by
  have hdiag : (Cloned.SusUnsafeTrivialRelocate c Inner).diagnostics
      = sus.mem.static_assert (sus.mem.TriviallyRelocatable c [Inner])
          "Type is not trivially relocatable" := by
    simp [Cloned.SusUnsafeTrivialRelocate, sus.mem.sus_class_trivially_relocatable,
      sus.mem.sus_class_trivially_relocatable_if_types, sus.mem.is_same_v,
      sus.mem.static_assert]
  refine ⟨by rw [hdiag, sus.mem.static_assert_eq_nil], ?_⟩
  intro ClonedInner href hvol hsize hdecl
  have hok : sus.mem.TriviallyRelocatable c [Inner] = true := by
    have h := hdecl.1
    rwa [hdiag, sus.mem.static_assert_eq_nil] at h
  have hmember := hdecl.2
  simp only [Cloned.SusUnsafeTrivialRelocate, sus.mem.sus_class_trivially_relocatable,
    sus.mem.sus_class_trivially_relocatable_if_types, hok] at hmember
  exact ⟨hok, sus.mem.TriviallyRelocatable_of_declared_true c ClonedInner href hvol hsize hmember⟩

/-- C26 at `Cloned<Raw>`, which compiles and is trivially relocatable, and at
`Cloned<S>`, whose declaration does not compile. -/
theorem C26_cloned_declaration_witness :
    sus.mem.TriviallyRelocatable sus.mem.clang64_cloned [.named 13] = true
      ∧ (Cloned.SusUnsafeTrivialRelocate sus.mem.clang64_cloned (.named 1)).diagnostics ≠ [] :=
  ⟨((C26_cloned_declaration sus.mem.clang64_cloned (.named 8)).2 (.named 13) (by decide)
      (by decide) (by decide) (by unfold sus.mem.Declares; decide)).2,
    fun h => absurd ((C26_cloned_declaration sus.mem.clang64_cloned (.named 1)).1.mp h)
      (by decide)⟩

end sus.iter

/-! # Theorems on `subdoc/lib/gen/options.h` -/

namespace subdoc.gen

theorem first_index_eq_none (ch : Char) (s : List Char) :
    first_index ch s = none ↔ ch ∉ s := by
  induction s with
  | nil => simp [first_index]
  | cons x xs ih =>
    by_cases hx : x = ch
    · simp [first_index, hx]
    · have hne : ¬ ch = x := fun h => hx h.symm
      simp [first_index, hx, hne, ih]

/-- The index `first_index` finds splits the string at the first occurrence. -/
theorem first_index_eq_some (ch : Char) (s : List Char) (i : Nat)
    (h : first_index ch s = some i) :
    i < s.length ∧ s.take i ++ ch :: s.drop (i + 1) = s ∧ ch ∉ s.take i := by
  induction s generalizing i with
  | nil => simp [first_index] at h
  | cons x xs ih =>
    by_cases hx : x = ch
    · simp only [first_index, hx, if_true, Option.some.injEq] at h
      subst h
      simp [hx]
    · simp only [first_index, hx, if_false, Option.map_eq_some'] at h
      obtain ⟨j, hj, hij⟩ := h
      subst hij
      obtain ⟨h1, h2, h3⟩ := ih j hj
      have hne : ¬ ch = x := fun h => hx h.symm
      refine ⟨by simpa using h1, by simpa using h2, by simpa [hne] using h3⟩

theorem from_string_of_none (bits : Nat) (s : List Char)
    (h : first_index ';' s = none) :
    FavIcon.from_string bits s
      = some (.error "invalid favicon string, use 'path;mimetype'") := by
  simp [FavIcon.from_string, string_view.find, h]

theorem from_string_of_some (bits : Nat) (s : List Char) (i : Nat)
    (hlen : s.length < npos bits) (h : first_index ';' s = some i) :
    FavIcon.from_string bits s = some (.ok { path := s.take i, mime := s.drop (i + 1) }) := by
  have hi := (first_index_eq_some ';' s i h).1
  unfold npos at hlen
  have hmod : i % 2 ^ bits = i := Nat.mod_eq_of_lt (by omega)
  have hmod1 : (i + 1) % 2 ^ bits = i + 1 := Nat.mod_eq_of_lt (by omega)
  have hne : i ≠ 2 ^ bits - 1 := by omega
  have htake : List.take (2 ^ bits - 1) (List.drop (i + 1) s) = List.drop (i + 1) s :=
    List.take_of_length_le (by rw [List.length_drop]; omega)
  have hnot : ¬ (i + 1 > s.length) := by omega
  simp [FavIcon.from_string, string_view.find, string_view.substr, h, hmod, hmod1, npos, hne,
    htake, hnot]

/-- C23: for a string shorter than `npos`, as every `std::string_view` is,
`FavIcon::from_string` returns the error
"invalid favicon string, use 'path;mimetype'" exactly when the string has no
`;`, and returns a `FavIcon` for every string that has one. -/
theorem C23_from_string_error_iff (bits : Nat) (s : List Char)
    (hlen : s.length < npos bits) :
    (FavIcon.from_string bits s = some (.error "invalid favicon string, use 'path;mimetype'")
        ↔ ';' ∉ s)
      ∧ (';' ∈ s → ∃ icon : FavIcon, FavIcon.from_string bits s = some (.ok icon)) := by
  cases h : first_index ';' s with
  | none =>
    have hnot := (first_index_eq_none ';' s).mp h
    exact ⟨⟨fun _ => hnot, fun _ => from_string_of_none bits s h⟩, fun hmem => absurd hmem hnot⟩
  | some i =>
    have hmem : ';' ∈ s := by
      by_contra hnot
      rw [(first_index_eq_none ';' s).mpr hnot] at h
      exact absurd h (by simp)
    have hok := from_string_of_some bits s i hlen h
    refine ⟨⟨fun herr => ?_, fun hnot => absurd hmem hnot⟩, fun _ => ⟨_, hok⟩⟩
    rw [hok] at herr
    exact absurd herr (by simp)

/-- C23 at the string ";", which is accepted with an empty path and an empty
mime type, and at "abc", which is rejected. -/
theorem C23_from_string_error_iff_witness :
    FavIcon.from_string 64 [';'] = some (.ok { path := [], mime := [] })
      ∧ FavIcon.from_string 64 ['a', 'b', 'c']
          = some (.error "invalid favicon string, use 'path;mimetype'") :=
  ⟨rfl, (C23_from_string_error_iff 64 ['a', 'b', 'c'] (by decide)).1.mpr (by decide)⟩

theorem takeWhile_dropWhile_of_split (ch : Char) (p m : List Char) (hp : ch ∉ p) :
    (p ++ ch :: m).takeWhile (fun x => x != ch) = p
      ∧ (p ++ ch :: m).dropWhile (fun x => x != ch) = ch :: m := by
  induction p with
  | nil => simp
  | cons x xs ih =>
    have hx : x ≠ ch := fun h => hp (by simp [h])
    have hxs : ch ∉ xs := fun h => hp (by simp [h])
    obtain ⟨h1, h2⟩ := ih hxs
    simp only [List.cons_append]
    rw [List.takeWhile_cons, List.dropWhile_cons]
    simp [hx, h1, h2]

/-- C24: when `FavIcon::from_string` accepts a string shorter than `npos`, the
path is the part of the string before its first `;`, so has no `;` in it, the
mime type is everything after that first `;`, and the path, a `;` and the mime
type make up the string. -/
theorem C24_from_string_split (bits : Nat) (s : List Char) (icon : FavIcon)
    (hlen : s.length < npos bits)
    (hok : FavIcon.from_string bits s = some (.ok icon)) :
    icon.path = s.takeWhile (fun x => x != ';')
      ∧ ';' ∉ icon.path
      ∧ icon.mime = (s.dropWhile (fun x => x != ';')).drop 1
      ∧ icon.path ++ ';' :: icon.mime = s := by
  cases h : first_index ';' s with
  | none =>
    rw [from_string_of_none bits s h] at hok
    exact absurd hok (by simp)
  | some i =>
    rw [from_string_of_some bits s i hlen h] at hok
    simp only [Option.some.injEq, Except.ok.injEq] at hok
    subst hok
    obtain ⟨_, hsplit, hnot⟩ := first_index_eq_some ';' s i h
    obtain ⟨h1, h2⟩ := takeWhile_dropWhile_of_split ';' (s.take i) (s.drop (i + 1)) hnot
    rw [hsplit] at h1 h2
    refine ⟨h1.symm, hnot, ?_, hsplit⟩
    rw [h2]
    rfl

/-- C24 at the string "a;b;c": the path is "a" and the mime type "b;c". -/
theorem C24_from_string_split_witness :
    ({ path := ['a'], mime := ['b', ';', 'c'] } : FavIcon).path ++ ';' :: ['b', ';', 'c']
        = ['a', ';', 'b', ';', 'c']
      ∧ FavIcon.from_string 64 ['a', ';', 'b', ';', 'c']
          = some (.ok { path := ['a'], mime := ['b', ';', 'c'] }) :=
  ⟨(C24_from_string_split 64 ['a', ';', 'b', ';', 'c']
      { path := ['a'], mime := ['b', ';', 'c'] } (by decide) rfl).2.2.2,
    rfl⟩

end subdoc.gen

/-! # Theorems on `subdoc/lib/gen/generate_record.cc` -/

namespace subdoc.gen

theorem string_view.compare_swap (a b : List Char) :
    (string_view.compare a b).swap = string_view.compare b a := by
  induction a generalizing b with
  | nil => cases b <;> rfl
  | cons x xs ih =>
    cases b with
    | nil => rfl
    | cons y ys =>
      simp only [string_view.compare]
      by_cases h1 : x < y
      · simp [h1, lt_asymm h1, Ordering.swap]
      · by_cases h2 : y < x
        · simp [h1, h2, Ordering.swap]
        · simp [h1, h2, ih]

theorem string_view.compare_eq_iff (a b : List Char) :
    string_view.compare a b = .eq ↔ a = b := by
  induction a generalizing b with
  | nil => cases b <;> simp [string_view.compare]
  | cons x xs ih =>
    cases b with
    | nil => simp [string_view.compare]
    | cons y ys =>
      simp only [string_view.compare]
      by_cases h1 : x < y
      · simp [h1, ne_of_lt h1]
      · by_cases h2 : y < x
        · simp [h1, h2, (ne_of_lt h2).symm]
        · have hxy : x = y := le_antisymm (not_lt.mp h2) (not_lt.mp h1)
          simp [h1, h2, hxy, ih]

theorem string_view.compare_le_trans (a b c : List Char)
    (hab : string_view.compare a b ≠ .gt) (hbc : string_view.compare b c ≠ .gt) :
    string_view.compare a c ≠ .gt := by
  induction a generalizing b c with
  | nil => cases c <;> simp [string_view.compare]
  | cons x xs ih =>
    cases b with
    | nil => simp [string_view.compare] at hab
    | cons y ys =>
      cases c with
      | nil => simp [string_view.compare] at hbc
      | cons z zs =>
        simp only [string_view.compare] at hab hbc ⊢
        by_cases hxy : x < y
        · have hzy : ¬ z < y := by
            intro h
            simp [h, lt_asymm h] at hbc
          have hxz : x < z := lt_of_lt_of_le hxy (not_lt.mp hzy)
          simp [hxz]
        · have hyx : ¬ y < x := by
            intro h
            simp [hxy, h] at hab
          have hxy' : x = y := le_antisymm (not_lt.mp hyx) (not_lt.mp hxy)
          subst hxy'
          simp only [hxy, if_false] at hab
          by_cases hxz : x < z
          · simp [hxz]
          · have hzx : ¬ z < x := by
              intro h
              simp [hxz, h] at hbc
            simp only [hxz, hzx, if_false] at hbc ⊢
            exact ih ys zs hab hbc

instance string_view.compare_transCmp : Batteries.TransCmp string_view.compare where
  symm := string_view.compare_swap
  le_trans := fun {a b c} hab hbc => string_view.compare_le_trans a b c hab hbc

theorem foldl_push_special (l : List (FunctionId × FunctionElement))
    (acc : List (SortedByName FunctionId)) :
    l.foldl
        (fun sorted_special_methods entry =>
          if entry.2.hidden then sorted_special_methods
          else push sorted_special_methods
            { name := entry.2.name, sort_key := entry.2.sort_key, id := entry.1 })
        acc
      = acc ++ (l.filter (fun e => !e.2.hidden)).map entry_tuple := by
  induction l generalizing acc with
  | nil => simp
  | cons e l ih =>
    rw [List.foldl_cons, ih]
    cases h : e.2.hidden <;> simp [h, push, entry_tuple, List.filter_cons]

theorem foldl_collect_method (l : List (FunctionId × FunctionElement)) (lists : MethodLists) :
    (l.foldl collect_method lists).sorted_static_methods
        = lists.sorted_static_methods
          ++ (l.filter (fun e => !e.2.hidden && e.1.is_static)).map entry_tuple
      ∧ (l.foldl collect_method lists).sorted_operators
        = lists.sorted_operators
          ++ (l.filter (fun e => !e.2.hidden && !e.1.is_static && e.2.is_operator)).map
              entry_tuple
      ∧ (l.foldl collect_method lists).sorted_methods
        = lists.sorted_methods
          ++ (l.filter (fun e => !e.2.hidden && !e.1.is_static && !e.2.is_operator)).map
              entry_tuple := by
  induction l generalizing lists with
  | nil => simp
  | cons e l ih =>
    rw [List.foldl_cons]
    obtain ⟨h1, h2, h3⟩ := ih (collect_method lists e)
    rw [h1, h2, h3]
    cases hh : e.2.hidden <;> cases hs : e.1.is_static <;> cases ho : e.2.is_operator <;>
      simp [collect_method, hh, hs, ho, push, entry_tuple, List.filter_cons]

theorem partition_perm (l : List (FunctionId × FunctionElement)) :
    ((l.filter (fun e => !e.2.hidden && e.1.is_static)).map entry_tuple
        ++ (l.filter (fun e => !e.2.hidden && !e.1.is_static && e.2.is_operator)).map
            entry_tuple
        ++ (l.filter (fun e => !e.2.hidden && !e.1.is_static && !e.2.is_operator)).map
            entry_tuple).Perm
      ((l.filter (fun e => !e.2.hidden)).map entry_tuple) := by
  induction l with
  | nil => simp
  | cons e l ih =>
    cases hh : e.2.hidden <;> cases hs : e.1.is_static <;> cases ho : e.2.is_operator <;>
      simp only [List.filter_cons, hh, hs, ho, Bool.not_true, Bool.not_false, Bool.and_true,
        Bool.and_false, Bool.true_and, Bool.false_and, if_true, if_false, List.map_cons,
        List.cons_append, Bool.false_eq_true]
    all_goals first
      | exact ih
      | exact ih.cons _
      | exact (List.perm_middle.trans (ih.cons _))
      | exact (((List.perm_middle.append_right _).trans (by simp)).trans (ih.cons _))

/-- C28: the loop of `generate_record` over `element.methods` puts the tuple
of every entry that is not hidden in `sorted_static_methods` when its id is
static, otherwise in `sorted_operators` when it is an operator, otherwise in
`sorted_methods`, in iteration order, and puts no hidden entry anywhere: each
entry that is not hidden meets exactly one of the three conditions and a
hidden one none, so the three lists together are a rearrangement of the tuples
of the entries that are not hidden; and `sorted_special_methods` holds the
tuples of the constructors, destructors and conversions that are not hidden. -/
theorem C28_methods_partition (element : RecordElement) :
    (collect_methods element).sorted_static_methods
        = (element.methods.filter (fun e => !e.2.hidden && e.1.is_static)).map entry_tuple
      ∧ (collect_methods element).sorted_operators
        = (element.methods.filter
            (fun e => !e.2.hidden && !e.1.is_static && e.2.is_operator)).map entry_tuple
      ∧ (collect_methods element).sorted_methods
        = (element.methods.filter
            (fun e => !e.2.hidden && !e.1.is_static && !e.2.is_operator)).map entry_tuple
      ∧ (∀ e : FunctionId × FunctionElement,
          [!e.2.hidden && e.1.is_static,
            !e.2.hidden && !e.1.is_static && e.2.is_operator,
            !e.2.hidden && !e.1.is_static && !e.2.is_operator].count true
            = if e.2.hidden then 0 else 1)
      ∧ ((collect_methods element).sorted_static_methods
          ++ (collect_methods element).sorted_operators
          ++ (collect_methods element).sorted_methods).Perm
          ((element.methods.filter (fun e => !e.2.hidden)).map entry_tuple)
      ∧ collect_special_methods element
        = ((element.ctors ++ element.dtors ++ element.conversions).filter
            (fun e => !e.2.hidden)).map entry_tuple := by
  obtain ⟨h1, h2, h3⟩ := foldl_collect_method element.methods
    { sorted_static_methods := [], sorted_methods := [], sorted_operators := [] }
  simp only [List.nil_append] at h1 h2 h3
  refine ⟨h1, h2, h3, ?_, ?_, ?_⟩
  · intro e
    cases e.2.hidden <;> cases e.1.is_static <;> cases e.2.is_operator <;> decide
  · unfold collect_methods
    rw [h1, h2, h3]
    exact partition_perm element.methods
  · unfold collect_special_methods
    rw [foldl_push_special]
    rfl

theorem compare_by_name_eq_then {Id : Type} (a b : SortedByName Id) :
    compare_by_name a b
      = (string_view.compare a.name b.name).then (compare a.sort_key b.sort_key) := by
  unfold compare_by_name
  cases string_view.compare a.name b.name <;> simp [Ordering.then]

theorem compare_special_eq_then {Id : Type} (a b : SortedByName Id) :
    compare_special a b
      = (compare (string_view.starts_with a.name ['~'])
          (string_view.starts_with b.name ['~'])).then (compare_by_name a b) := by
  simp only [compare_special, compare_by_name]
  generalize compare (string_view.starts_with a.name ['~'])
    (string_view.starts_with b.name ['~']) = dtor_ord
  generalize string_view.compare a.name b.name = ord
  cases dtor_ord <;> cases ord <;> simp [Ordering.then]

theorem compare_by_name_eq_lex {Id : Type} :
    @compare_by_name Id
      = compareLex (Ordering.byKey (fun e => e.name) string_view.compare)
          (Ordering.byKey (fun e => e.sort_key) compare) := by
  funext a b
  rw [compare_by_name_eq_then]
  rfl

instance compare_by_name_transCmp {Id : Type} : Batteries.TransCmp (@compare_by_name Id) := by
  rw [compare_by_name_eq_lex]
  infer_instance

theorem compare_special_eq_lex {Id : Type} :
    @compare_special Id
      = compareLex
          (Ordering.byKey (fun e => string_view.starts_with e.name ['~']) compare)
          compare_by_name := by
  funext a b
  rw [compare_special_eq_then]
  rfl

instance compare_special_transCmp {Id : Type} : Batteries.TransCmp (@compare_special Id) := by
  rw [compare_special_eq_lex]
  infer_instance

/-- A comparator that is oriented and transitive has, for every list, a
reordering in which no entry is greater than a later one. -/
theorem exists_sortedUnstableBy {α : Type} (cmp : α → α → Ordering) [Batteries.TransCmp cmp]
    (collected : List α) : ∃ sorted : List α, SortedUnstableBy cmp collected sorted := by
  haveI : IsTotal α (fun a b => cmp a b ≠ .gt) :=
    ⟨fun a b => by
      by_cases h : cmp a b = .gt
      · right
        rw [Batteries.OrientedCmp.cmp_eq_gt.mp h]
        decide
      · left
        exact h⟩
  haveI : IsTrans α (fun a b => cmp a b ≠ .gt) :=
    ⟨fun _ _ _ hab hbc => Batteries.TransCmp.le_trans hab hbc⟩
  exact ⟨collected.insertionSort (fun a b => cmp a b ≠ .gt),
    List.perm_insertionSort _ collected, List.sorted_insertionSort _ collected⟩

theorem name_le_of_compare_by_name {Id : Type} (a b : SortedByName Id)
    (h : compare_by_name a b ≠ .gt) : string_view.compare a.name b.name ≠ .gt := by
  rw [compare_by_name_eq_then] at h
  intro hgt
  exact h (Ordering.then_eq_gt.mpr (Or.inl hgt))

theorem cmp_total_of_oriented {α : Type} (cmp : α → α → Ordering) [Batteries.OrientedCmp cmp]
    (a b : α) : cmp a b ≠ .gt ∨ cmp b a ≠ .gt := by
  by_cases h : cmp a b = .gt
  · right
    rw [Batteries.OrientedCmp.cmp_eq_gt.mp h]
    decide
  · left
    exact h

theorem cmp_eq_of_le_of_ge {α : Type} (cmp : α → α → Ordering) [Batteries.OrientedCmp cmp]
    (a b : α) (hab : cmp a b ≠ .gt) (hba : cmp b a ≠ .gt) : cmp a b = .eq := by
  have hlt : cmp a b ≠ .lt := Batteries.OrientedCmp.cmp_ne_gt.mp hba
  cases h : cmp a b with
  | lt => exact absurd h hlt
  | eq => rfl
  | gt => exact absurd h hab

theorem compare_by_name_eq_iff {Id : Type} (a b : SortedByName Id) :
    compare_by_name a b = .eq ↔ a.name = b.name ∧ a.sort_key = b.sort_key := by
  rw [compare_by_name_eq_then, Ordering.then_eq_eq, string_view.compare_eq_iff,
    compare_eq_iff_eq]

theorem key_le_of_compare_by_name {Id : Type} (a b : SortedByName Id)
    (h : compare_by_name a b ≠ .gt) (hname : a.name = b.name) : a.sort_key ≤ b.sort_key := by
  rw [compare_by_name_eq_then, (string_view.compare_eq_iff a.name b.name).mpr hname] at h
  by_contra hgt
  exact h (compare_gt_iff_gt.mpr (not_le.mp hgt))

/-- C29: the comparator that sorts the field lists and the static-method,
method and operator lists is the lexicographic order on name, then sort key.
An entry compares equal to itself; two entries compare equal exactly when
their names and sort keys are equal, and so they do when neither is greater
than the other; not being greater is transitive, and of two entries one is not
greater than the other.  Every list of entries has a sorted rearrangement, and
any sorted rearrangement of the collected entries is non-decreasing in name
and, among equal names, in sort key, so that the entries between two entries
of the same name have that name too. -/
theorem C29_compare_by_name {Id : Type} :
    (∀ a b : SortedByName Id,
        compare_by_name a b
          = (string_view.compare a.name b.name).then (compare a.sort_key b.sort_key))
      ∧ (∀ a : SortedByName Id, compare_by_name a a = .eq)
      ∧ (∀ a b : SortedByName Id,
          compare_by_name a b = .eq ↔ a.name = b.name ∧ a.sort_key = b.sort_key)
      ∧ (∀ a b : SortedByName Id,
          compare_by_name a b ≠ .gt → compare_by_name b a ≠ .gt →
          a.name = b.name ∧ a.sort_key = b.sort_key)
      ∧ (∀ a b c : SortedByName Id,
          compare_by_name a b ≠ .gt → compare_by_name b c ≠ .gt → compare_by_name a c ≠ .gt)
      ∧ (∀ a b : SortedByName Id, compare_by_name a b ≠ .gt ∨ compare_by_name b a ≠ .gt)
      ∧ (∀ collected : List (SortedByName Id),
          ∃ sorted, SortedUnstableBy compare_by_name collected sorted)
      ∧ (∀ collected sorted : List (SortedByName Id),
          SortedUnstableBy compare_by_name collected sorted →
          sorted.Pairwise
              (fun a b =>
                string_view.compare a.name b.name ≠ .gt
                  ∧ (a.name = b.name → a.sort_key ≤ b.sort_key))
            ∧ ∀ (before : List (SortedByName Id)) (a : SortedByName Id)
                (between : List (SortedByName Id)) (b : SortedByName Id)
                (after : List (SortedByName Id)),
                sorted = before ++ a :: (between ++ b :: after) →
                a.name = b.name → ∀ m ∈ between, m.name = a.name) := by
  refine ⟨compare_by_name_eq_then, fun a => Batteries.OrientedCmp.cmp_refl,
    compare_by_name_eq_iff, fun a b hab hba => ?_,
    fun a b c hab hbc => Batteries.TransCmp.le_trans hab hbc,
    cmp_total_of_oriented compare_by_name, exists_sortedUnstableBy compare_by_name, ?_⟩
  · exact (compare_by_name_eq_iff a b).mp (cmp_eq_of_le_of_ge compare_by_name a b hab hba)
  · intro collected sorted hsorted
    refine ⟨hsorted.2.imp (fun {a b} h =>
      ⟨name_le_of_compare_by_name a b h, key_le_of_compare_by_name a b h⟩), ?_⟩
    intro before a between b after hsplit hname m hm
    have hpair := hsorted.2
    rw [hsplit, List.pairwise_append] at hpair
    have htail := hpair.2.1
    rw [List.pairwise_cons, List.pairwise_append] at htail
    have ham : string_view.compare a.name m.name ≠ .gt :=
      name_le_of_compare_by_name a m (htail.1 m (by simp [hm]))
    have hmb : string_view.compare m.name b.name ≠ .gt :=
      name_le_of_compare_by_name m b (htail.2.2.2 m hm b (by simp))
    rw [← hname] at hmb
    exact ((string_view.compare_eq_iff a.name m.name).mp
      (cmp_eq_of_le_of_ge string_view.compare a.name m.name ham hmb)).symm

/-- C29 at three collected fields `b` (key 0), `a` (key 1), `a` (key 0) and
their sorted order `a` (key 0), `a` (key 1), `b` (key 0). -/
theorem C29_compare_by_name_witness :
    SortedUnstableBy compare_by_name
        ([⟨['b'], 0, 1⟩, ⟨['a'], 1, 2⟩, ⟨['a'], 0, 3⟩] : List (SortedByName Nat))
        [⟨['a'], 0, 3⟩, ⟨['a'], 1, 2⟩, ⟨['b'], 0, 1⟩]
      ∧ ([⟨['a'], 0, 3⟩, ⟨['a'], 1, 2⟩, ⟨['b'], 0, 1⟩] : List (SortedByName Nat)).Pairwise
          (fun a b =>
            string_view.compare a.name b.name ≠ .gt
              ∧ (a.name = b.name → a.sort_key ≤ b.sort_key)) :=
  have h : SortedUnstableBy compare_by_name
      ([⟨['b'], 0, 1⟩, ⟨['a'], 1, 2⟩, ⟨['a'], 0, 3⟩] : List (SortedByName Nat))
      [⟨['a'], 0, 3⟩, ⟨['a'], 1, 2⟩, ⟨['b'], 0, 1⟩] := ⟨by decide, by decide⟩
  ⟨h, (C29_compare_by_name.2.2.2.2.2.2.2 _ _ h).1⟩

/-- C30: the comparator that sorts the special methods is the lexicographic
order on whether the name starts with `~`, then name, then sort key.  An entry
compares equal to itself, not being greater is transitive, and of two entries
one is not greater than the other.  Every list of entries has a sorted
rearrangement, and in any sorted rearrangement of the collected entries no
entry whose name starts with `~` comes before one whose name does not, and two
entries that both start with `~`, or both do not, are in the order of name,
then sort key. -/
theorem C30_compare_special {Id : Type} :
    (∀ a b : SortedByName Id,
        compare_special a b
          = (compare (string_view.starts_with a.name ['~'])
              (string_view.starts_with b.name ['~'])).then
              ((string_view.compare a.name b.name).then (compare a.sort_key b.sort_key)))
      ∧ (∀ a : SortedByName Id, compare_special a a = .eq)
      ∧ (∀ a b c : SortedByName Id,
          compare_special a b ≠ .gt → compare_special b c ≠ .gt → compare_special a c ≠ .gt)
      ∧ (∀ a b : SortedByName Id, compare_special a b ≠ .gt ∨ compare_special b a ≠ .gt)
      ∧ (∀ collected : List (SortedByName Id),
          ∃ sorted, SortedUnstableBy compare_special collected sorted)
      ∧ (∀ collected sorted : List (SortedByName Id),
          SortedUnstableBy compare_special collected sorted →
          sorted.Pairwise
            (fun a b =>
              (string_view.starts_with a.name ['~'] = true →
                  string_view.starts_with b.name ['~'] = true)
                ∧ (string_view.starts_with a.name ['~']
                      = string_view.starts_with b.name ['~'] →
                    compare_by_name a b ≠ .gt))) := by
  refine ⟨fun a b => ?_, fun a => Batteries.OrientedCmp.cmp_refl,
    fun a b c hab hbc => Batteries.TransCmp.le_trans hab hbc,
    cmp_total_of_oriented compare_special, exists_sortedUnstableBy compare_special, ?_⟩
  · rw [compare_special_eq_then, compare_by_name_eq_then]
  · intro collected sorted hsorted
    refine hsorted.2.imp (fun {a b} h => ?_)
    rw [compare_special_eq_then] at h
    refine ⟨fun ha => ?_, fun hsame => ?_⟩
    · by_contra hb
      rw [ha, Bool.eq_false_iff.mpr hb] at h
      exact h rfl
    · rw [hsame] at h
      have hrefl : compare (string_view.starts_with b.name ['~'])
          (string_view.starts_with b.name ['~']) = .eq := by
        cases string_view.starts_with b.name ['~'] <;> rfl
      rw [hrefl] at h
      exact h

/-- C30 at the collected special methods `~S`, `operator int`, `S` (key 1),
`S` (key 0) and their sorted order, in which `~S` is last. -/
theorem C30_compare_special_witness :
    SortedUnstableBy compare_special
        ([⟨['~', 'S'], 0, 1⟩, ⟨['o', 'p'], 0, 2⟩, ⟨['S'], 1, 3⟩, ⟨['S'], 0, 4⟩] :
          List (SortedByName Nat))
        [⟨['S'], 0, 4⟩, ⟨['S'], 1, 3⟩, ⟨['o', 'p'], 0, 2⟩, ⟨['~', 'S'], 0, 1⟩]
      ∧ ([⟨['S'], 0, 4⟩, ⟨['S'], 1, 3⟩, ⟨['o', 'p'], 0, 2⟩, ⟨['~', 'S'], 0, 1⟩] :
          List (SortedByName Nat)).Pairwise
          (fun a b =>
            (string_view.starts_with a.name ['~'] = true →
                string_view.starts_with b.name ['~'] = true)
              ∧ (string_view.starts_with a.name ['~'] = string_view.starts_with b.name ['~'] →
                  compare_by_name a b ≠ .gt)) :=
  have h : SortedUnstableBy compare_special
      ([⟨['~', 'S'], 0, 1⟩, ⟨['o', 'p'], 0, 2⟩, ⟨['S'], 1, 3⟩, ⟨['S'], 0, 4⟩] :
        List (SortedByName Nat))
      [⟨['S'], 0, 4⟩, ⟨['S'], 1, 3⟩, ⟨['o', 'p'], 0, 2⟩, ⟨['~', 'S'], 0, 1⟩] :=
    ⟨by decide, by decide⟩
  ⟨h, C30_compare_special.2.2.2.2.2 _ _ h⟩

end subdoc.gen

/-! # Theorems on the lookups and the title of `generate_record` -/

namespace subdoc.gen

theorem map_at_isSome_of_mem {K V : Type} [DecidableEq K] (map : List (K × V)) (key : K)
    (value : V) (h : (key, value) ∈ map) : (map_at map key).isSome = true := by
  induction map with
  | nil => simp at h
  | cons entry rest ih =>
    by_cases hkey : entry.1 = key
    · simp [map_at, hkey]
    · have hrest : (key, value) ∈ rest := by
        rcases List.mem_cons.mp h with heq | hmem
        · exact absurd (by rw [← heq]) hkey
        · exact hmem
      simp [map_at, hkey, ih hrest]

theorem map_count_eq_zero_iff {K V : Type} [DecidableEq K] (map : List (K × V)) (key : K) :
    map_count map key = 0 ↔ (map_at map key).isSome = false := by
  unfold map_count
  cases (map_at map key).isSome <;> simp

theorem Found.at_of_isSome (map : List (FunctionId × FunctionElement)) (key : FunctionId)
    (h : (map_at map key).isSome = true) : ∃ func, Found.at map key = .element func := by
  unfold Found.at
  cases hat : map_at map key with
  | none => rw [hat] at h; exact absurd h (by simp)
  | some func => exact ⟨func, rfl⟩

theorem foldl_collect_field (l : List (Nat × FieldElement)) (lists : FieldLists) :
    (l.foldl collect_field lists).sorted_static_fields
        = lists.sorted_static_fields
          ++ (l.filter (fun e => !e.2.hidden && e.2.is_static)).map
              (fun e => { name := e.2.name, sort_key := e.2.sort_key, id := e.1 })
      ∧ (l.foldl collect_field lists).sorted_fields
        = lists.sorted_fields
          ++ (l.filter (fun e => !e.2.hidden && !e.2.is_static)).map
              (fun e => { name := e.2.name, sort_key := e.2.sort_key, id := e.1 }) := by
  induction l generalizing lists with
  | nil => simp
  | cons e l ih =>
    rw [List.foldl_cons]
    obtain ⟨h1, h2⟩ := ih (collect_field lists e)
    rw [h1, h2]
    cases hh : e.2.hidden <;> cases hs : e.2.is_static <;>
      simp [collect_field, hh, hs, push, List.filter_cons]

/-- Every entry of the two field vectors carries the symbol of an entry of
`element.fields`. -/
theorem collect_fields_ids (element : RecordElement) (field : SortedByName Nat)
    (h : field ∈ (collect_fields element).sorted_static_fields
      ∨ field ∈ (collect_fields element).sorted_fields) :
    ∃ fe, (field.id, fe) ∈ element.fields := by
  obtain ⟨h1, h2⟩ := foldl_collect_field element.fields
    { sorted_static_fields := [], sorted_fields := [] }
  simp only [List.nil_append] at h1 h2
  unfold collect_fields at h
  rw [h1, h2] at h
  rcases h with h | h
  all_goals
    obtain ⟨e, he, rfl⟩ := List.mem_map.mp h
    exact ⟨e.2, (List.mem_filter.mp he).1⟩

/-- Every entry of the three method vectors carries the id of an entry of
`element.methods`. -/
theorem collect_methods_ids (element : RecordElement) (method : SortedByName FunctionId)
    (h : method ∈ (collect_methods element).sorted_static_methods
      ∨ method ∈ (collect_methods element).sorted_methods
      ∨ method ∈ (collect_methods element).sorted_operators) :
    ∃ func, (method.id, func) ∈ element.methods := by
  obtain ⟨h1, h2, h3⟩ := foldl_collect_method element.methods
    { sorted_static_methods := [], sorted_methods := [], sorted_operators := [] }
  simp only [List.nil_append] at h1 h2 h3
  unfold collect_methods at h
  rw [h1, h2, h3] at h
  rcases h with h | h | h
  all_goals
    obtain ⟨e, he, rfl⟩ := List.mem_map.mp h
    exact ⟨e.2, (List.mem_filter.mp he).1⟩

/-- Every entry of the special-method vector carries the id of a constructor,
a destructor or a conversion. -/
theorem collect_special_methods_ids (element : RecordElement)
    (method : SortedByName FunctionId) (h : method ∈ collect_special_methods element) :
    ∃ func, (method.id, func) ∈ element.ctors ∨ (method.id, func) ∈ element.dtors
      ∨ (method.id, func) ∈ element.conversions := by
  unfold collect_special_methods at h
  rw [foldl_push_special, List.nil_append] at h
  obtain ⟨e, he, rfl⟩ := List.mem_map.mp h
  have hmem := (List.mem_filter.mp he).1
  simp only [List.mem_append] at hmem
  exact ⟨e.2, by
    rcases hmem with (hmem | hmem) | hmem
    · exact Or.inl hmem
    · exact Or.inr (Or.inl hmem)
    · exact Or.inr (Or.inr hmem)⟩

theorem func_of_methods (element : RecordElement) (type : Nat) (function_id : FunctionId)
    (htype : type = StaticMethods ∨ type = NonStaticMethods ∨ type = NonStaticOperators)
    (hkey : ∃ func, (function_id, func) ∈ element.methods) :
    ∃ func, generate_record_methods.func element type function_id = .element func := by
  obtain ⟨func, hmem⟩ := hkey
  have hat := Found.at_of_isSome element.methods function_id
    (map_at_isSome_of_mem element.methods function_id func hmem)
  rcases htype with h | h | h <;> subst h <;>
    simpa [generate_record_methods.func, SpecialMethods, StaticMethods, NonStaticMethods,
      NonStaticOperators] using hat

theorem func_of_special (element : RecordElement) (function_id : FunctionId)
    (hkey : ∃ func, (function_id, func) ∈ element.ctors ∨ (function_id, func) ∈ element.dtors
      ∨ (function_id, func) ∈ element.conversions) :
    (∃ func, generate_record_methods.func element SpecialMethods function_id = .element func)
      ∧ (map_count element.ctors function_id = 0 → map_count element.dtors function_id = 0 →
          map_count element.conversions function_id = 1) := by
  obtain ⟨func, hmem⟩ := hkey
  have hconv : map_count element.ctors function_id = 0 →
      map_count element.dtors function_id = 0 →
      (map_at element.conversions function_id).isSome = true := by
    intro hc hd
    rw [map_count_eq_zero_iff] at hc hd
    rcases hmem with h | h | h
    · rw [map_at_isSome_of_mem _ _ _ h] at hc
      exact absurd hc (by simp)
    · rw [map_at_isSome_of_mem _ _ _ h] at hd
      exact absurd hd (by simp)
    · exact map_at_isSome_of_mem _ _ _ h
  refine ⟨?_, fun hc hd => by simp [map_count, hconv hc hd]⟩
  unfold generate_record_methods.func
  rw [if_pos rfl]
  by_cases hc : map_count element.ctors function_id = 0
  · by_cases hd : map_count element.dtors function_id = 0
    · simp only [hc, hd, ne_eq, not_true_eq_false, if_false]
      exact Found.at_of_isSome _ _ (hconv hc hd)
    · simp only [hc, hd, ne_eq, not_true_eq_false, not_false_eq_true, if_false, if_true]
      refine Found.at_of_isSome _ _ ?_
      by_contra hnone
      exact hd ((map_count_eq_zero_iff _ _).mpr (Bool.eq_false_iff.mpr hnone))
  · simp only [hc, ne_eq, not_false_eq_true, if_true]
    refine Found.at_of_isSome _ _ ?_
    by_contra hnone
    exact hc ((map_count_eq_zero_iff _ _).mpr (Bool.eq_false_iff.mpr hnone))

/-- C31: for the vectors that `generate_record` collects from `element` and
sorts, every lookup made while rendering returns an element: `fields.at` for
each symbol of the two field vectors; `methods.at` for each id of the
static-method, method and operator vectors; and for each id of the
special-method vector the lookup in `ctors`, then `dtors`, then `conversions`,
where an id that is a key of neither `ctors` nor `dtors`, so that
`conversions.at` is reached, is a key of `conversions`.  No lookup throws and
none reaches `sus::unreachable()`. -/
theorem C31_lookups_succeed (element : RecordElement) (sorted : SortedVectors)
    (hsorts : generate_record.Sorts element sorted) :
    (∀ r ∈ generate_record_fields element sorted.sorted_static_fields,
        ∃ field, r = some field)
      ∧ (∀ r ∈ generate_record_fields element sorted.sorted_fields, ∃ field, r = some field)
      ∧ (∀ r ∈ generate_record_methods element StaticMethods sorted.sorted_static_methods,
          ∃ func, r = .element func)
      ∧ (∀ r ∈ generate_record_methods element NonStaticMethods sorted.sorted_methods,
          ∃ func, r = .element func)
      ∧ (∀ r ∈ generate_record_methods element NonStaticOperators sorted.sorted_operators,
          ∃ func, r = .element func)
      ∧ (∀ r ∈ generate_record_methods element SpecialMethods sorted.sorted_special_methods,
          ∃ func, r = .element func)
      ∧ (∀ method ∈ sorted.sorted_special_methods,
          map_count element.ctors method.id = 0 → map_count element.dtors method.id = 0 →
          map_count element.conversions method.id = 1) := by
  obtain ⟨hsf, hf, hsp, hsm, hm, ho⟩ := hsorts
  have hfield : ∀ (fields : List (SortedByName Nat)),
      (∀ field ∈ fields, ∃ fe, (field.id, fe) ∈ element.fields) →
      ∀ r ∈ generate_record_fields element fields, ∃ field, r = some field := by
    intro fields hkeys r hr
    obtain ⟨field, hmem, rfl⟩ := List.mem_map.mp hr
    obtain ⟨fe, hfe⟩ := hkeys field hmem
    exact Option.isSome_iff_exists.mp (map_at_isSome_of_mem element.fields field.id fe hfe)
  have hmethod : ∀ (type : Nat) (methods : List (SortedByName FunctionId)),
      (type = StaticMethods ∨ type = NonStaticMethods ∨ type = NonStaticOperators) →
      (∀ method ∈ methods, ∃ func, (method.id, func) ∈ element.methods) →
      ∀ r ∈ generate_record_methods element type methods, ∃ func, r = .element func := by
    intro type methods htype hkeys r hr
    obtain ⟨method, hmem, rfl⟩ := List.mem_map.mp hr
    exact func_of_methods element type method.id htype (hkeys method hmem)
  refine ⟨hfield _ (fun field h => ?_), hfield _ (fun field h => ?_),
    hmethod _ _ (Or.inl rfl) (fun method h => ?_),
    hmethod _ _ (Or.inr (Or.inl rfl)) (fun method h => ?_),
    hmethod _ _ (Or.inr (Or.inr rfl)) (fun method h => ?_), ?_, ?_⟩
  · exact collect_fields_ids element field (Or.inl (hsf.1.subset h))
  · exact collect_fields_ids element field (Or.inr (hf.1.subset h))
  · exact collect_methods_ids element method (Or.inl (hsm.1.subset h))
  · exact collect_methods_ids element method (Or.inr (Or.inl (hm.1.subset h)))
  · exact collect_methods_ids element method (Or.inr (Or.inr (ho.1.subset h)))
  · intro r hr
    obtain ⟨method, hmem, rfl⟩ := List.mem_map.mp hr
    exact (func_of_special element method.id
      (collect_special_methods_ids element method (hsp.1.subset hmem))).1
  · intro method hmem
    exact (func_of_special element method.id
      (collect_special_methods_ids element method (hsp.1.subset hmem))).2

/-- C31 at the sample record: the lookups for its three special methods find
the constructor, the conversion and the destructor, and the lookups for its
two overloads of `get` find them. -/
theorem C31_lookups_succeed_witness :
    generate_record.Sorts sample_record sample_sorted
      ∧ (∀ r ∈ generate_record_methods sample_record SpecialMethods
            sample_sorted.sorted_special_methods,
          ∃ func, r = .element func)
      ∧ generate_record_methods sample_record NonStaticMethods sample_sorted.sorted_methods
          = [.element
              { name := "get".toList, sort_key := 0, is_operator := false, hidden := false },
            .element
              { name := "get".toList, sort_key := 1, is_operator := false, hidden := false }] :=
  have h : generate_record.Sorts sample_record sample_sorted := by
    unfold generate_record.Sorts SortedUnstableBy
    decide
  ⟨h, (C31_lookups_succeed sample_record sample_sorted h).2.2.2.2.2.1, by decide⟩

theorem foldl_title_namespaces (path : List Namespace) (title : List Char) :
    path.foldl
        (fun title n =>
          match n with
          | .Global => title
          | .Anonymous => title ++ "(anonymous)".toList ++ "::".toList
          | .Named name => title ++ name ++ "::".toList)
        title
      = title ++ (path.map title_part).flatten := by
  induction path generalizing title with
  | nil => simp
  | cons n path ih =>
    rw [List.foldl_cons, ih]
    cases n with
    | Global => simp [title_part]
    | Anonymous =>
      have h : "(anonymous)".toList ++ "::".toList = "(anonymous)::".toList := by decide
      simp [title_part, List.append_assoc, h]
    | Named name => simp [title_part, List.append_assoc]

theorem foldl_title_records (path : List (List Char)) (title : List Char) :
    path.foldl (fun title record_name => title ++ record_name ++ "::".toList) title
      = title ++ (path.map (fun record_name => record_name ++ "::".toList)).flatten := by
  induction path generalizing title with
  | nil => simp
  | cons record_name path ih =>
    rw [List.foldl_cons, ih]
    simp [List.append_assoc]

/-- C32: the title `generate_record` builds is, in this order: for each
namespace of the namespace path taken in reverse, nothing when it is the
global namespace, "(anonymous)::" when it is anonymous, and its name followed
by "::" when it is named; for each record name of the record path taken in
reverse, the name followed by "::"; and the name of the element, after which
nothing follows.  For the sample record it is
"a::(anonymous)::b::Outer::Inner::S". -/
theorem C32_title :
    (∀ element : RecordElement,
        generate_record.title element
          = (element.namespace_path.reverse.map title_part).flatten
            ++ (element.record_path.reverse.map
                (fun record_name => record_name ++ "::".toList)).flatten
            ++ element.name)
      ∧ generate_record.title sample_record = "a::(anonymous)::b::Outer::Inner::S".toList := by
  refine ⟨fun element => ?_, by decide⟩
  unfold generate_record.title
  simp only [foldl_title_namespaces, foldl_title_records, List.nil_append]

end subdoc.gen
